import Mathlib

/-!
# Serial channel with deadline timer: a shallow embedding of `serial.cpp`

The development follows the source file function by function.

* Machine integers are mathematical integers with explicit wrap-around:
  `int` is 32 bits, `long`, `time_t`, `suseconds_t` and `ssize_t` are 64 bits,
  `unsigned` is 32 bits and `unsigned long` is 64 bits (LP64).
* The operating system is an oracle: the successive answers of
  `gettimeofday` and of `read` are lists that the program consumes in
  program order.  A run that needs an answer the lists no longer hold is
  `stuck` (the program is still polling).
* Memory written through the caller's pointer is a log of stores, most
  recent first; addresses are offsets from the start of the caller's buffer.
-/

namespace SerialLib

/-! ## Machine integers -/

/-- Conversion to `int` (32-bit two's complement wrap-around). -/
def toInt32 (x : Int) : Int := (x + 2147483648) % 4294967296 - 2147483648

/-- Conversion to `long int` (64-bit two's complement wrap-around). -/
def toInt64 (x : Int) : Int :=
  (x + 9223372036854775808) % 18446744073709551616 - 9223372036854775808

/-- Conversion to `unsigned` (reduction modulo 2^32). -/
def toUInt32 (x : Int) : Nat := (x % 4294967296).toNat

/-- Conversion to `unsigned long int` (reduction modulo 2^64). -/
def toUInt64 (x : Int) : Nat := (x % 18446744073709551616).toNat

/-! ## Exceptions and outcomes -/

/-- The exception classes thrown by the library. -/
inductive Exn
  | ErrorOpeningException
  | ErrorSpeedException
  | ErrorWriteException
  | ErrorReadException
  | TimeoutException
  | ErrorBufferFullException
deriving DecidableEq, Repr

/-- How a call ends: it returns a value, it throws, or the recorded answers
of the operating system ran out while it was still looping. -/
inductive Outcome (α : Type)
  | ret (v : α)
  | throw (e : Exn)
  | stuck
deriving DecidableEq, Repr

/-! ## Deadline timer (`TimeOut`) -/

/-- The `struct timeval` filled in by `gettimeofday`. -/
structure timeval where
  tv_sec : Int
  tv_usec : Int
deriving DecidableEq, Repr

/-- Microseconds since the epoch denoted by a `timeval`. -/
def timeval.us (t : timeval) : Int := t.tv_sec * 1000000 + t.tv_usec

/-- The microsecond field is in its normal range `[0, 999999]`. -/
def timeval.normal (t : timeval) : Prop := 0 ≤ t.tv_usec ∧ t.tv_usec ≤ 999999

instance (t : timeval) : Decidable t.normal := by
  unfold timeval.normal; infer_instance

/-- The class `TimeOut`: its only member is the start instant. -/
structure TimeOut where
  PreviousTime : timeval
deriving DecidableEq, Repr

/-- The body of `TimeOut::ElapsedTime_ms`, as a function of the instant
`CurrentTime` that its `gettimeofday` call has just stored.  `sec` and `usec`
are `int`; the returned `int` expression is converted to `unsigned long int`. -/
def TimeOut.ElapsedTime_ms (self : TimeOut) (CurrentTime : timeval) : Nat :=
  let sec := toInt32 (CurrentTime.tv_sec - self.PreviousTime.tv_sec)
  let usec := toInt32 (CurrentTime.tv_usec - self.PreviousTime.tv_usec)
  if usec < 0 then
    let usec := toInt32 (1000000 - self.PreviousTime.tv_usec + CurrentTime.tv_usec)
    let sec := toInt32 (sec - 1)
    toUInt64 (toInt32 (toInt32 (sec * 1000) + Int.tdiv usec 1000))
  else
    toUInt64 (toInt32 (toInt32 (sec * 1000) + Int.tdiv usec 1000))

/-! ## The line behind the descriptor -/

/-- One answer of the system call `read`: the returned `ssize_t` and the
bytes the kernel has available to copy into the caller's buffer. -/
structure OsRead where
  ret : Int
  data : List Nat
deriving DecidableEq, Repr

/-- What a read call works against.
`clock`: the successive answers of `gettimeofday`.
`reads`: the successive answers of `read`.
`asked`: the byte counts passed to `read` so far, most recent first.
`mem`: the stores made through the caller's pointer, most recent first, each
a start address and the bytes laid down from it. -/
structure World where
  clock : List timeval
  reads : List OsRead
  asked : List Nat
  mem : List (Nat × List Nat)
deriving DecidableEq, Repr

/-- Lay `bytes` down from address `ptr`; storing nothing leaves the log as it is. -/
def store (mem : List (Nat × List Nat)) (ptr : Nat) (bytes : List Nat) :
    List (Nat × List Nat) :=
  if bytes = [] then mem else (ptr, bytes) :: mem

/-- The byte last stored at address `a`, if any store covered it. -/
def load : List (Nat × List Nat) → Nat → Option Nat
  | [], _ => none
  | (ptr, bytes) :: mem, a =>
    if ptr ≤ a ∧ a < ptr + bytes.length then bytes[a - ptr]? else load mem a

/-- Every address that some store of the log covers. -/
def written (mem : List (Nat × List Nat)) (a : Nat) : Prop :=
  ∃ e ∈ mem, e.1 ≤ a ∧ a < e.1 + e.2.length

/-- The system call `read(fd, buf, count)`: takes the next answer, copies at
most `count` bytes to `buf` and hands back the returned value. -/
def sys_read (buf count : Nat) (w : World) : Option (Int × World) :=
  match w.reads with
  | [] => none
  | r :: reads =>
    some (r.ret, { w with reads := reads, asked := count :: w.asked,
                          mem := store w.mem buf (r.data.take count) })

/-! ## `Serial::ReadChar` -/

/-- The `while` loop of `ReadChar`; the list argument is the clock, one
sample per evaluation of the loop condition. -/
def ReadChar.loop (pByte TimeOut_ms : Nat) (Timer : TimeOut) :
    List timeval → World → Outcome Nat × World
  | [], w => (.stuck, { w with clock := [] })
  | CurrentTime :: clock, w =>
    let w := { w with clock := clock }
    if Timer.ElapsedTime_ms CurrentTime < TimeOut_ms ∨ TimeOut_ms = 0 then
      match sys_read pByte 1 w with
      | none => (.stuck, w)
      | some (n, w) =>
        if n = -1 then (.throw .ErrorReadException, w)
        else if n = 1 then (.ret 1, w)
        else ReadChar.loop pByte TimeOut_ms Timer clock w
    else (.throw .TimeoutException, w)

/-- `unsigned Serial::ReadChar(char *pByte, unsigned TimeOut_ms)`. -/
def ReadChar (pByte TimeOut_ms : Nat) (w : World) : Outcome Nat × World :=
  match w.clock with
  | [] => (.stuck, w)
  | PreviousTime :: clock => ReadChar.loop pByte TimeOut_ms ⟨PreviousTime⟩ clock w

/-- Modelled from the spec: the default value of `ReadChar`'s second parameter,
declared in the absent header `serial.hpp`; the unbounded string read
"repeatedly calls the single-byte read (with no timeout)", and `0` is the
"no bound" value of the timeout convention. -/
def ReadChar.default_TimeOut_ms : Nat := 0

/-! ## `Serial::ReadStringNoTimeOut` and `Serial::ReadString` -/

/-- Either the call is over, or the loop goes on from a new state. -/
inductive Flow (σ : Type)
  | exit (r : Outcome Nat × World)
  | go (s : σ)

/-- What follows a `ReadChar` that returned `ret` (lines 152-166 and 194-204):
on the delimiter the cell is overwritten with NUL and the count returned,
otherwise the count goes up by one.  A cell that was never stored compares
unequal to the delimiter. -/
def afterChar (String FinalChar NbBytes ret : Nat) (w : World) : Flow (Nat × World) :=
  if ret = 1 then
    if load w.mem (String + NbBytes) = some FinalChar then
      .exit (.ret NbBytes, { w with mem := store w.mem (String + NbBytes) [0] })
    else .go (NbBytes + 1, w)
  else .exit (.throw .ErrorReadException, w)

/-- The `while` loop of `ReadStringNoTimeOut`.  Every pass takes at least
one clock sample, so the first argument, the number of passes allowed, is
set to the length of the clock by the caller. -/
def ReadStringNoTimeOut.loop (String FinalChar MaxNbBytes : Nat) :
    Nat → Nat → World → Outcome Nat × World
  | 0, NbBytes, w =>
    if NbBytes < MaxNbBytes then (.stuck, w)
    else (.throw .ErrorBufferFullException, w)
  | passes + 1, NbBytes, w =>
    if NbBytes < MaxNbBytes then
      match ReadChar (String + NbBytes) ReadChar.default_TimeOut_ms w with
      | (.ret ret, w) =>
        match afterChar String FinalChar NbBytes ret w with
        | .exit r => r
        | .go (NbBytes, w) =>
          ReadStringNoTimeOut.loop String FinalChar MaxNbBytes passes NbBytes w
      | (.throw e, w) => (.throw e, w)
      | (.stuck, w) => (.stuck, w)
    else (.throw .ErrorBufferFullException, w)

/-- `unsigned Serial::ReadStringNoTimeOut(char *String, char FinalChar, unsigned MaxNbBytes)`. -/
def ReadStringNoTimeOut (String FinalChar MaxNbBytes : Nat) (w : World) :
    Outcome Nat × World :=
  ReadStringNoTimeOut.loop String FinalChar MaxNbBytes w.clock.length 0 w

/-- Lines 190-205 of `ReadString`: the remaining time is computed in
`unsigned long`, stored in a `long int`, and passed on as an `unsigned`. -/
def ReadString.attempt (String FinalChar TimeOut_ms : Nat) (Timer : TimeOut)
    (NbBytes : Nat) (w : World) : Flow (Nat × World) :=
  match w.clock with
  | [] => .exit (.stuck, w)
  | CurrentTime :: clock =>
    let w := { w with clock := clock }
    let TimeOutParam : Int :=
      toInt64 (toUInt64 ((TimeOut_ms : Int) - (Timer.ElapsedTime_ms CurrentTime : Int)))
    if TimeOutParam > 0 then
      match ReadChar (String + NbBytes) (toUInt32 TimeOutParam) w with
      | (.ret ret, w) => afterChar String FinalChar NbBytes ret w
      | (.throw e, w) => .exit (.throw e, w)
      | (.stuck, w) => .exit (.stuck, w)
    else .go (NbBytes, w)

/-- Lines 206-210 of `ReadString`: the elapsed-time check that ends each pass. -/
def ReadString.expired (String TimeOut_ms : Nat) (Timer : TimeOut)
    (NbBytes : Nat) (w : World) : Flow World :=
  match w.clock with
  | [] => .exit (.stuck, w)
  | CurrentTime :: clock =>
    let w := { w with clock := clock }
    if Timer.ElapsedTime_ms CurrentTime > TimeOut_ms then
      .exit (.throw .TimeoutException,
             { w with mem := store w.mem (String + NbBytes) [0] })
    else .go w

/-- The `while` loop of `ReadString` (bounded variant); the first argument
is the number of passes allowed, as in `ReadStringNoTimeOut.loop`. -/
def ReadString.loop (String FinalChar MaxNbBytes TimeOut_ms : Nat) (Timer : TimeOut) :
    Nat → Nat → World → Outcome Nat × World
  | 0, NbBytes, w =>
    if NbBytes < MaxNbBytes then (.stuck, w)
    else (.throw .ErrorBufferFullException, w)
  | passes + 1, NbBytes, w =>
    if NbBytes < MaxNbBytes then
      match ReadString.attempt String FinalChar TimeOut_ms Timer NbBytes w with
      | .exit r => r
      | .go (NbBytes, w) =>
        match ReadString.expired String TimeOut_ms Timer NbBytes w with
        | .exit r => r
        | .go w =>
          ReadString.loop String FinalChar MaxNbBytes TimeOut_ms Timer passes NbBytes w
    else (.throw .ErrorBufferFullException, w)

/-- `unsigned Serial::ReadString(char *String, char FinalChar, unsigned MaxNbBytes,
unsigned TimeOut_ms)`. -/
def ReadString (String FinalChar MaxNbBytes TimeOut_ms : Nat) (w : World) :
    Outcome Nat × World :=
  if TimeOut_ms = 0 then ReadStringNoTimeOut String FinalChar MaxNbBytes w
  else
    match w.clock with
    | [] => (.stuck, w)
    | PreviousTime :: clock =>
      ReadString.loop String FinalChar MaxNbBytes TimeOut_ms ⟨PreviousTime⟩
        clock.length 0 { w with clock := clock }

/-! ## `Serial::Read` -/

/-- The `while` loop of `Read`.  `Ret` is an `int`; `NbByteRead` and the
requested count are `unsigned`. -/
def Read.loop (Buffer MaxNbBytes TimeOut_ms : Nat) (Timer : TimeOut) :
    List timeval → Nat → World → Outcome Nat × World
  | [], _, w => (.stuck, { w with clock := [] })
  | CurrentTime :: clock, NbByteRead, w =>
    let w := { w with clock := clock }
    if Timer.ElapsedTime_ms CurrentTime < TimeOut_ms ∨ TimeOut_ms = 0 then
      match sys_read (Buffer + NbByteRead)
          (toUInt32 ((MaxNbBytes : Int) - (NbByteRead : Int))) w with
      | none => (.stuck, w)
      | some (n, w) =>
        let Ret := toInt32 n
        if Ret = -1 then (.throw .ErrorReadException, w)
        else if Ret > 0 then
          let NbByteRead := toUInt32 ((NbByteRead : Int) + Ret)
          if NbByteRead ≥ MaxNbBytes then (.ret NbByteRead, w)
          else Read.loop Buffer MaxNbBytes TimeOut_ms Timer clock NbByteRead w
        else Read.loop Buffer MaxNbBytes TimeOut_ms Timer clock NbByteRead w
    else (.throw .TimeoutException, w)

/-- `unsigned Serial::Read(void *Buffer, unsigned MaxNbBytes, unsigned TimeOut_ms)`. -/
def Read (Buffer MaxNbBytes TimeOut_ms : Nat) (w : World) : Outcome Nat × World :=
  match w.clock with
  | [] => (.stuck, w)
  | PreviousTime :: clock =>
    Read.loop Buffer MaxNbBytes TimeOut_ms ⟨PreviousTime⟩ clock 0 w

/-! ## `Serial::Write` -/

/-- The speed constants of `termios.h` that `Open` selects from. -/
inductive speed_t
  | B110 | B300 | B600 | B1200 | B2400 | B4800 | B9600 | B19200 | B38400
  | B57600 | B115200
deriving DecidableEq, Repr

/-- The flag constants of `termios.h` that `Open` sets. -/
inductive tcflag
  | CLOCAL | CREAD | CS8 | IGNPAR | IGNBRK
deriving DecidableEq, Repr

/-- The fields of `struct termios` that `Open` touches; after `bzero` every
one of them is empty or zero. -/
structure termios where
  c_cflag : List tcflag
  c_iflag : List tcflag
  c_ispeed : Option speed_t
  c_ospeed : Option speed_t
  VTIME : Nat
  VMIN : Nat
deriving DecidableEq, Repr

/-- The system calls of `Open` and `Close`, as the kernel sees them. -/
inductive Syscall
  | open_ (Device : String)
  | fcntl (fd : Int)
  | tcgetattr (fd : Int)
  | tcsetattr (fd : Int) (options : termios)
  | close (fd : Int)
deriving DecidableEq, Repr

/-- The kernel's side of the descriptor table.
`devices`: the paths an `open` succeeds on.
`fds`: the descriptors of the process that are open.
`trace`: the system calls issued so far, oldest first. -/
structure Kernel where
  devices : List String
  fds : List Int
  trace : List Syscall
deriving DecidableEq, Repr

/-- The lowest descriptor number not in use, which is what `open` returns. -/
def lowestFree (fds : List Int) : Int :=
  Int.ofNat (((List.range (fds.length + 1)).find? (fun n => decide (Int.ofNat n ∉ fds))).getD
    fds.length)

/-- `open(Device, O_RDWR | O_NOCTTY | O_NDELAY)`. -/
def sys_open (Device : String) (k : Kernel) : Int × Kernel :=
  if Device ∈ k.devices then
    (lowestFree k.fds,
     { k with fds := lowestFree k.fds :: k.fds, trace := k.trace ++ [.open_ Device] })
  else (-1, { k with trace := k.trace ++ [.open_ Device] })

/-- `close(fd)`: releases the descriptor if it is open (and otherwise fails
with `EBADF`, which the caller never looks at). -/
def sys_close (fd : Int) (k : Kernel) : Kernel :=
  { k with fds := k.fds.erase fd, trace := k.trace ++ [.close fd] }

/-- A system call that only shows in the trace. -/
def sys_log (c : Syscall) (k : Kernel) : Kernel :=
  { k with trace := k.trace ++ [c] }

/-- The class `Serial`: its only data member is the descriptor `fd`. -/
structure Serial where
  fd : Int
deriving DecidableEq, Repr

/-- `Serial::Serial()`: the body is empty and `fd` has no initialiser, so the
member keeps whatever its storage held (zero for an object of static storage
duration). -/
def Serial.ctor (indeterminate : Int) : Serial := ⟨indeterminate⟩

/-- The `switch (Bauds)` of `Open`; `none` is the `default:` label. -/
def Speed (Bauds : Nat) : Option speed_t :=
  if Bauds = 110 then some .B110
  else if Bauds = 300 then some .B300
  else if Bauds = 600 then some .B600
  else if Bauds = 1200 then some .B1200
  else if Bauds = 2400 then some .B2400
  else if Bauds = 4800 then some .B4800
  else if Bauds = 9600 then some .B9600
  else if Bauds = 19200 then some .B19200
  else if Bauds = 38400 then some .B38400
  else if Bauds = 57600 then some .B57600
  else if Bauds = 115200 then some .B115200
  else none

/-- `void Serial::Open(const char *Device, const unsigned Bauds)`. -/
def Serial.Open (self : Serial) (Device : String) (Bauds : Nat) (k : Kernel) :
    Outcome Unit × Serial × Kernel :=
  let (fd, k) := sys_open Device k
  let self : Serial := { self with fd := fd }
  if fd = -1 then (.throw .ErrorOpeningException, self, k)
  else
    let k := sys_log (.fcntl fd) k
    let k := sys_log (.tcgetattr fd) k
    let options : termios := ⟨[], [], none, none, 0, 0⟩
    match Speed Bauds with
    | none => (.throw .ErrorSpeedException, self, k)
    | some Speed =>
      let options := { options with c_ispeed := some Speed }
      let options := { options with c_ospeed := some Speed }
      let options := { options with c_cflag := options.c_cflag ++ [tcflag.CLOCAL, tcflag.CREAD, tcflag.CS8] }
      let options := { options with c_iflag := options.c_iflag ++ [tcflag.IGNPAR, tcflag.IGNBRK] }
      let options := { options with VTIME := 0 }
      let options := { options with VMIN := 0 }
      let k := sys_log (.tcsetattr fd options) k
      (.ret (), self, k)

/-- `void Serial::Close()`. -/
def Serial.Close (self : Serial) (k : Kernel) : Serial × Kernel :=
  (self, sys_close self.fd k)

/-- `Serial::~Serial()`. -/
def Serial.dtor (self : Serial) (k : Kernel) : Kernel :=
  (self.Close k).2

/-- The set of baud values of the `case` labels of `Open`. -/
def supportedBauds : List Nat :=
  [110, 300, 600, 1200, 2400, 4800, 9600, 19200, 38400, 57600, 115200]

/-! ## Vocabulary of the properties -/

/-- Iteration `j` of a polling loop went by without an event: its clock
sample passed the loop condition and its read returned 0. -/
def pass (T : Nat) (Timer : TimeOut) (cs : List timeval) (reads : List OsRead)
    (j : Nat) : Prop :=
  (∃ c, cs[j]? = some c ∧ (Timer.ElapsedTime_ms c < T ∨ T = 0)) ∧
  (∃ r, reads[j]? = some r ∧ r.ret = 0)

/-- All iterations before the `i`-th went by without an event. -/
def quiet (T : Nat) (Timer : TimeOut) (cs : List timeval) (reads : List OsRead)
    (i : Nat) : Prop :=
  ∀ j, j < i → pass T Timer cs reads j

/-- The first non-zero read result is `v`, returned by the read of iteration
`i`: the iterations before it were quiet, its clock sample passed the loop
condition, and its read returned `v`. -/
def firstReadAt (T : Nat) (Timer : TimeOut) (cs : List timeval) (reads : List OsRead)
    (v : Int) (i : Nat) : Prop :=
  quiet T Timer cs reads i ∧
  ∃ c r, cs[i]? = some c ∧ (Timer.ElapsedTime_ms c < T ∨ T = 0) ∧
    reads[i]? = some r ∧ r.ret = v

/-- A clock sample of at least `T` milliseconds is observed at iteration `i`
while every earlier read returned 0. -/
def deadlineAt (T : Nat) (Timer : TimeOut) (cs : List timeval) (reads : List OsRead)
    (i : Nat) : Prop :=
  quiet T Timer cs reads i ∧ ∃ c, cs[i]? = some c ∧ T ≤ Timer.ElapsedTime_ms c

/-- The recorded answers run out at iteration `i`: there is no clock sample
left, or the sample passes and there is no read answer left. -/
def exhaustedAt (T : Nat) (Timer : TimeOut) (cs : List timeval) (reads : List OsRead)
    (i : Nat) : Prop :=
  quiet T Timer cs reads i ∧
  (cs[i]? = none ∨
    ∃ c, cs[i]? = some c ∧ (Timer.ElapsedTime_ms c < T ∨ T = 0) ∧ reads[i]? = none)

/-- The read answers of a peer that has nothing for `idle` polls and then
delivers the byte `b`. -/
def burst (idle b : Nat) : List OsRead :=
  List.replicate idle ⟨0, []⟩ ++ [⟨1, [b]⟩]

/-- The read answers that deliver a stream of bytes one at a time; each
cell is a byte (second component) and the number of empty polls that precede
it (first component). -/
def feed : List (Nat × Nat) → List OsRead
  | [] => []
  | cell :: cells => burst cell.1 cell.2 ++ feed cells

/-- The clock samples are normal, do not run backward from the instant `lo`
on, and stay before the instant `hi` (both in microseconds). -/
def steady (lo hi : Int) : List timeval → Prop
  | [] => True
  | c :: cs => c.normal ∧ lo ≤ c.us ∧ c.us < hi ∧ steady c.us hi cs

/-- The stores that lay the bytes `bs` down one at a time from address `a`
on, most recent first. -/
def laid (a : Nat) : List Nat → List (Nat × List Nat)
  | [] => []
  | b :: bs => laid (a + 1) bs ++ [(a, [b])]

end SerialLib

namespace SerialLib

/-! # Properties -/

/-! ## Arithmetic of the timer -/

theorem tdiv_thousand (a : Int) (h : 0 ≤ a) : Int.tdiv a 1000 = a / 1000 :=
  Int.tdiv_eq_ediv h (by decide)

/-- Inside the range of `int` the timer is exact: for normal instants with
`a` not later than `b` and fewer than 2^31 whole milliseconds between them,
`ElapsedTime_ms` is the whole number of milliseconds from `a` to `b`. -/
theorem ElapsedTime_ms_exact (a b : timeval) (ha : a.normal) (hb : b.normal)
    (hab : a.us ≤ b.us) (hfit : (b.us - a.us) / 1000 < 2147483648) :
    ((TimeOut.mk a).ElapsedTime_ms b : Int) = (b.us - a.us) / 1000 := by
  obtain ⟨ha0, ha1⟩ := ha
  obtain ⟨hb0, hb1⟩ := hb
  unfold timeval.us at hab hfit ⊢
  unfold TimeOut.ElapsedTime_ms
  have hu : toInt32 (b.tv_usec - a.tv_usec) = b.tv_usec - a.tv_usec := by
    unfold toInt32; omega
  simp only [hu]
  by_cases hneg : b.tv_usec - a.tv_usec < 0
  · have h1 : toInt32 (1000000 - a.tv_usec + b.tv_usec) = 1000000 - a.tv_usec + b.tv_usec := by
      unfold toInt32; omega
    have h2 : toInt32 (b.tv_sec - a.tv_sec) = b.tv_sec - a.tv_sec := by
      unfold toInt32; omega
    have h3 : toInt32 (b.tv_sec - a.tv_sec - 1) = b.tv_sec - a.tv_sec - 1 := by
      unfold toInt32; omega
    have h4 : toInt32 ((b.tv_sec - a.tv_sec - 1) * 1000) = (b.tv_sec - a.tv_sec - 1) * 1000 := by
      unfold toInt32; omega
    rw [if_pos hneg]
    simp only [h1, h2, h3, h4]
    rw [tdiv_thousand _ (by omega)]
    have h5 : toInt32 ((b.tv_sec - a.tv_sec - 1) * 1000 + (1000000 - a.tv_usec + b.tv_usec) / 1000)
        = (b.tv_sec - a.tv_sec - 1) * 1000 + (1000000 - a.tv_usec + b.tv_usec) / 1000 := by
      unfold toInt32; omega
    rw [h5]
    unfold toUInt64
    omega
  · have h2 : toInt32 (b.tv_sec - a.tv_sec) = b.tv_sec - a.tv_sec := by
      unfold toInt32; omega
    have h4 : toInt32 ((b.tv_sec - a.tv_sec) * 1000) = (b.tv_sec - a.tv_sec) * 1000 := by
      unfold toInt32; omega
    rw [if_neg hneg]
    simp only [h2, h4]
    rw [tdiv_thousand _ (by omega)]
    have h5 : toInt32 ((b.tv_sec - a.tv_sec) * 1000 + (b.tv_usec - a.tv_usec) / 1000)
        = (b.tv_sec - a.tv_sec) * 1000 + (b.tv_usec - a.tv_usec) / 1000 := by
      unfold toInt32; omega
    rw [h5]
    unfold toUInt64
    omega

/-- C6, at the failing input.  Start instant (1700000000 s, 0 µs), sampled
instant 2147484 s later: the product `sec*1000` leaves the range of `int`, and
`ElapsedTime_ms` returns 18446744071562068320 where the whole number of
milliseconds since the start is 2147484000. -/
theorem ElapsedTime_ms_overflow :
    (TimeOut.mk ⟨1700000000, 0⟩).ElapsedTime_ms ⟨1702147484, 0⟩ = 18446744071562068320 ∧
    ((1702147484 - 1700000000) * 1000000 + 0 - 0 : Int) / 1000 = 2147484000 := by
  decide

/-- C7 as stated fails.  Start instant with X = 1 µs, sampled instant one
second later with Y = 0 µs: `ElapsedTime_ms` returns 999, the stated formula
1000 − X/1000 + Y/1000 gives 1000. -/
theorem ElapsedTime_ms_borrow_formula_fails :
    ((TimeOut.mk ⟨0, 1⟩).ElapsedTime_ms ⟨0 + 1, 0⟩ : Int) = 999 ∧
    (1000 - 1 / 1000 + 0 / 1000 : Int) = 1000 := by
  decide

/-- C7, amended.  For a start instant with microsecond component X and a
sampled instant whose seconds field is one greater and whose microsecond
component is Y < X (both in [0, 999999]), `ElapsedTime_ms` returns
(1000000 − X + Y) / 1000, the whole milliseconds of the true span; that is
1000 − X/1000 + Y/1000 when Y mod 1000 ≥ X mod 1000 and one less otherwise. -/
theorem ElapsedTime_ms_borrow (s X Y : Int) (hX : X ≤ 999999) (hY : 0 ≤ Y) (hYX : Y < X) :
    ((TimeOut.mk ⟨s, X⟩).ElapsedTime_ms ⟨s + 1, Y⟩ : Int) = (1000000 - X + Y) / 1000 ∧
    ((TimeOut.mk ⟨s, X⟩).ElapsedTime_ms ⟨s + 1, Y⟩ : Int) =
      1000 - X / 1000 + Y / 1000 - (if Y % 1000 < X % 1000 then 1 else 0) := by
  have h := ElapsedTime_ms_exact ⟨s, X⟩ ⟨s + 1, Y⟩ ⟨by show (0 : Int) ≤ X; omega, hX⟩
    ⟨hY, by show Y ≤ 999999; omega⟩ (by unfold timeval.us; show s * 1000000 + X ≤ (s + 1) * 1000000 + Y; omega)
    (by unfold timeval.us; show ((s + 1) * 1000000 + Y - (s * 1000000 + X)) / 1000 < 2147483648; omega)
  have e : (timeval.us ⟨s + 1, Y⟩ - timeval.us ⟨s, X⟩) / 1000 = (1000000 - X + Y) / 1000 := by
    unfold timeval.us
    show ((s + 1) * 1000000 + Y - (s * 1000000 + X)) / 1000 = (1000000 - X + Y) / 1000
    congr 1; ring
  rw [e] at h
  refine ⟨h, ?_⟩
  rw [h]
  split <;> omega

/-- The hypotheses of `ElapsedTime_ms_borrow` hold for X = 999999 and Y = 1000. -/
theorem ElapsedTime_ms_borrow_witness :
    ((TimeOut.mk ⟨7, 999999⟩).ElapsedTime_ms ⟨7 + 1, 1000⟩ : Int) = (1000000 - 999999 + 1000) / 1000 ∧
    ((TimeOut.mk ⟨7, 999999⟩).ElapsedTime_ms ⟨7 + 1, 1000⟩ : Int) =
      1000 - 999999 / 1000 + 1000 / 1000 - (if (1000 : Int) % 1000 < 999999 % 1000 then 1 else 0) :=
  ElapsedTime_ms_borrow 7 999999 1000 (by decide) (by decide) (by decide)

/-! ## `ReadChar` -/

theorem quiet_zero (T : Nat) (Timer : TimeOut) (cs : List timeval) (reads : List OsRead) :
    quiet T Timer cs reads 0 := by
  intro j hj; omega

theorem quiet_cons {T : Nat} {Timer : TimeOut} {c : timeval} {cs : List timeval}
    {r : OsRead} {reads : List OsRead} {i : Nat}
    (hc : Timer.ElapsedTime_ms c < T ∨ T = 0) (hr : r.ret = 0)
    (h : quiet T Timer cs reads i) : quiet T Timer (c :: cs) (r :: reads) (i + 1) := by
  intro j hj
  cases j with
  | zero => exact ⟨⟨c, by simp, hc⟩, ⟨r, by simp, hr⟩⟩
  | succ j =>
    have := h j (by omega)
    simpa [pass] using this

/-- What one run of the loop of `ReadChar` does, by cases on the first event. -/
theorem ReadChar_loop_event (pByte T : Nat) (Timer : TimeOut) :
    ∀ (cs : List timeval) (w : World),
      (∀ r ∈ w.reads, r.ret = -1 ∨ r.ret = 0 ∨ r.ret = 1) →
      (∃ i, firstReadAt T Timer cs w.reads 1 i ∧
          (ReadChar.loop pByte T Timer cs w).1 = .ret 1 ∧
          (ReadChar.loop pByte T Timer cs w).2.reads = w.reads.drop (i + 1)) ∨
      (∃ i, firstReadAt T Timer cs w.reads (-1) i ∧
          (ReadChar.loop pByte T Timer cs w).1 = .throw .ErrorReadException ∧
          (ReadChar.loop pByte T Timer cs w).2.reads = w.reads.drop (i + 1)) ∨
      (∃ i, 0 < T ∧ deadlineAt T Timer cs w.reads i ∧
          (ReadChar.loop pByte T Timer cs w).1 = .throw .TimeoutException) ∨
      (∃ i, exhaustedAt T Timer cs w.reads i ∧
          (ReadChar.loop pByte T Timer cs w).1 = .stuck) := by
  intro cs
  induction cs with
  | nil =>
    intro w _
    right; right; right
    exact ⟨0, ⟨quiet_zero _ _ _ _, Or.inl rfl⟩, rfl⟩
  | cons c cs ih =>
    intro w hdom
    by_cases hc : Timer.ElapsedTime_ms c < T ∨ T = 0
    · cases hreads : w.reads with
      | nil =>
        right; right; right
        refine ⟨0, ⟨quiet_zero _ _ _ _, Or.inr ⟨c, by simp, hc, by simp⟩⟩, ?_⟩
        simp [ReadChar.loop, hc, sys_read, hreads]
      | cons r rs =>
        have hr := hdom r (by simp [hreads])
        have hdom' : ∀ r' ∈ rs, r'.ret = -1 ∨ r'.ret = 0 ∨ r'.ret = 1 :=
          fun r' h' => hdom r' (by simp [hreads, h'])
        rcases hr with hr | hr | hr
        · right; left
          refine ⟨0, ⟨quiet_zero _ _ _ _, c, r, by simp, hc, by simp, hr⟩, ?_, ?_⟩ <;>
            simp [ReadChar.loop, hc, sys_read, hreads, hr]
        · have hne1 : ¬ r.ret = -1 := by omega
          have hne2 : ¬ r.ret = 1 := by omega
          let w' : World := { clock := cs, reads := rs, asked := 1 :: w.asked,
                              mem := store w.mem pByte (r.data.take 1) }
          have hstep : ReadChar.loop pByte T Timer (c :: cs) w
              = ReadChar.loop pByte T Timer cs w' := by
            simp [ReadChar.loop, hc, sys_read, hreads, hr, w']
          rw [hstep]
          rcases ih w' hdom' with ⟨i, ⟨hq, c', r', h1, h2, h3, h4⟩, ho, hw⟩ |
              ⟨i, ⟨hq, c', r', h1, h2, h3, h4⟩, ho, hw⟩ | ⟨i, hT, ⟨hq, c', h1, h2⟩, ho⟩ |
              ⟨i, ⟨hq, hx⟩, ho⟩
          · left
            exact ⟨i + 1, ⟨quiet_cons hc hr hq, c', r', by simpa using h1, h2,
              by simpa using h3, h4⟩, ho, by simpa using hw⟩
          · right; left
            exact ⟨i + 1, ⟨quiet_cons hc hr hq, c', r', by simpa using h1, h2,
              by simpa using h3, h4⟩, ho, by simpa using hw⟩
          · right; right; left
            exact ⟨i + 1, hT, ⟨quiet_cons hc hr hq, c', by simpa using h1, h2⟩, ho⟩
          · right; right; right
            refine ⟨i + 1, ⟨quiet_cons hc hr hq, ?_⟩, ho⟩
            rcases hx with hx | ⟨c', h1, h2, h3⟩
            · left; simpa using hx
            · right; exact ⟨c', by simpa using h1, h2, by simpa using h3⟩
        · left
          refine ⟨0, ⟨quiet_zero _ _ _ _, c, r, by simp, hc, by simp, hr⟩, ?_, ?_⟩ <;>
            simp [ReadChar.loop, hc, sys_read, hreads, hr]
    · right; right; left
      have hT : 0 < T := by
        rcases Nat.eq_zero_or_pos T with h | h
        · exact absurd (Or.inr h) hc
        · exact h
      refine ⟨0, hT, ⟨quiet_zero _ _ _ _, c, by simp, ?_⟩, ?_⟩
      · by_contra hlt
        exact hc (Or.inl (by omega))
      · simp [ReadChar.loop, hc]

theorem not_pass_of_firstReadAt {T : Nat} {Timer : TimeOut} {cs : List timeval}
    {reads : List OsRead} {v : Int} {i : Nat} (hv : v ≠ 0)
    (h : firstReadAt T Timer cs reads v i) : ¬ pass T Timer cs reads i := by
  obtain ⟨_, c, r, _, _, h3, h4⟩ := h
  rintro ⟨_, r', h5, h6⟩
  rw [h3] at h5
  cases h5
  exact hv (h4 ▸ h6)

theorem not_pass_of_deadlineAt {T : Nat} {Timer : TimeOut} {cs : List timeval}
    {reads : List OsRead} {i : Nat} (hT : 0 < T)
    (h : deadlineAt T Timer cs reads i) : ¬ pass T Timer cs reads i := by
  obtain ⟨_, c, h1, h2⟩ := h
  rintro ⟨⟨c', h3, h4⟩, _⟩
  rw [h1] at h3
  cases h3
  omega

theorem not_pass_of_exhaustedAt {T : Nat} {Timer : TimeOut} {cs : List timeval}
    {reads : List OsRead} {i : Nat}
    (h : exhaustedAt T Timer cs reads i) : ¬ pass T Timer cs reads i := by
  obtain ⟨_, h | ⟨c, _, _, h3⟩⟩ := h
  · rintro ⟨⟨c', h3, _⟩, _⟩
    rw [h] at h3
    cases h3
  · rintro ⟨_, r', h5, _⟩
    rw [h3] at h5
    cases h5

/-- Two iterations that both end the quiet prefix are the same iteration. -/
theorem halt_index_unique {T : Nat} {Timer : TimeOut} {cs : List timeval}
    {reads : List OsRead} {i j : Nat}
    (hi : quiet T Timer cs reads i) (hni : ¬ pass T Timer cs reads i)
    (hj : quiet T Timer cs reads j) (hnj : ¬ pass T Timer cs reads j) : i = j := by
  rcases Nat.lt_trichotomy i j with h | h | h
  · exact absurd (hj i h) hni
  · exact h
  · exact absurd (hi j h) hnj

/-- The event that ends the loop of `ReadChar` decides its outcome. -/
theorem ReadChar_loop_outcome (pByte T : Nat) (Timer : TimeOut) (cs : List timeval) (w : World)
    (hdom : ∀ r ∈ w.reads, r.ret = -1 ∨ r.ret = 0 ∨ r.ret = 1) :
    (∀ i, firstReadAt T Timer cs w.reads 1 i →
        (ReadChar.loop pByte T Timer cs w).1 = .ret 1 ∧
        (ReadChar.loop pByte T Timer cs w).2.reads = w.reads.drop (i + 1)) ∧
    (∀ i, firstReadAt T Timer cs w.reads (-1) i →
        (ReadChar.loop pByte T Timer cs w).1 = .throw .ErrorReadException ∧
        (ReadChar.loop pByte T Timer cs w).2.reads = w.reads.drop (i + 1)) ∧
    (∀ i, 0 < T → deadlineAt T Timer cs w.reads i →
        (ReadChar.loop pByte T Timer cs w).1 = .throw .TimeoutException) ∧
    (∀ i, exhaustedAt T Timer cs w.reads i →
        (ReadChar.loop pByte T Timer cs w).1 = .stuck) := by
  have hev := ReadChar_loop_event pByte T Timer cs w hdom
  refine ⟨?_, ?_, ?_, ?_⟩
  · intro i h
    have hq := h.1
    have hn := not_pass_of_firstReadAt (by decide) h
    obtain ⟨_, c, r, h1, h2, h3, h4⟩ := h
    rcases hev with ⟨j, h', ho, hw⟩ | ⟨j, h', ho, hw⟩ | ⟨j, hT, h', ho⟩ | ⟨j, h', ho⟩
    · have := halt_index_unique hq hn h'.1 (not_pass_of_firstReadAt (by decide) h')
      subst this
      exact ⟨ho, hw⟩
    · have := halt_index_unique hq hn h'.1 (not_pass_of_firstReadAt (by decide) h')
      subst this
      obtain ⟨_, c', r', _, _, h3', h4'⟩ := h'
      rw [h3] at h3'; cases h3'; omega
    · have := halt_index_unique hq hn h'.1 (not_pass_of_deadlineAt hT h')
      subst this
      obtain ⟨_, c', h1', h2'⟩ := h'
      rw [h1] at h1'; cases h1'; omega
    · have := halt_index_unique hq hn h'.1 (not_pass_of_exhaustedAt h')
      subst this
      obtain ⟨_, h' | ⟨c', _, _, h3'⟩⟩ := h'
      · rw [h1] at h'; cases h'
      · rw [h3] at h3'; cases h3'
  · intro i h
    have hq := h.1
    have hn := not_pass_of_firstReadAt (by decide) h
    obtain ⟨_, c, r, h1, h2, h3, h4⟩ := h
    rcases hev with ⟨j, h', ho, hw⟩ | ⟨j, h', ho, hw⟩ | ⟨j, hT, h', ho⟩ | ⟨j, h', ho⟩
    · have := halt_index_unique hq hn h'.1 (not_pass_of_firstReadAt (by decide) h')
      subst this
      obtain ⟨_, c', r', _, _, h3', h4'⟩ := h'
      rw [h3] at h3'; cases h3'; omega
    · have := halt_index_unique hq hn h'.1 (not_pass_of_firstReadAt (by decide) h')
      subst this
      exact ⟨ho, hw⟩
    · have := halt_index_unique hq hn h'.1 (not_pass_of_deadlineAt hT h')
      subst this
      obtain ⟨_, c', h1', h2'⟩ := h'
      rw [h1] at h1'; cases h1'; omega
    · have := halt_index_unique hq hn h'.1 (not_pass_of_exhaustedAt h')
      subst this
      obtain ⟨_, h' | ⟨c', _, _, h3'⟩⟩ := h'
      · rw [h1] at h'; cases h'
      · rw [h3] at h3'; cases h3'
  · intro i hT h
    have hq := h.1
    have hn := not_pass_of_deadlineAt hT h
    obtain ⟨_, c, h1, h2⟩ := h
    rcases hev with ⟨j, h', ho, hw⟩ | ⟨j, h', ho, hw⟩ | ⟨j, _, h', ho⟩ | ⟨j, h', ho⟩
    · have := halt_index_unique hq hn h'.1 (not_pass_of_firstReadAt (by decide) h')
      subst this
      obtain ⟨_, c', r', h1', h2', _, _⟩ := h'
      rw [h1] at h1'; cases h1'; omega
    · have := halt_index_unique hq hn h'.1 (not_pass_of_firstReadAt (by decide) h')
      subst this
      obtain ⟨_, c', r', h1', h2', _, _⟩ := h'
      rw [h1] at h1'; cases h1'; omega
    · exact ho
    · have := halt_index_unique hq hn h'.1 (not_pass_of_exhaustedAt h')
      subst this
      obtain ⟨_, h' | ⟨c', h1', h2', _⟩⟩ := h'
      · rw [h1] at h'; cases h'
      · rw [h1] at h1'; cases h1'; omega
  · intro i h
    have hq := h.1
    have hn := not_pass_of_exhaustedAt h
    rcases hev with ⟨j, h', ho, hw⟩ | ⟨j, h', ho, hw⟩ | ⟨j, hT, h', ho⟩ | ⟨j, h', ho⟩
    · have := halt_index_unique hq hn h'.1 (not_pass_of_firstReadAt (by decide) h')
      subst this
      obtain ⟨_, c', r', h1', h2', h3', _⟩ := h'
      obtain ⟨_, h | ⟨c, h1, _, h3⟩⟩ := h
      · rw [h1'] at h; cases h
      · rw [h3'] at h3; cases h3
    · have := halt_index_unique hq hn h'.1 (not_pass_of_firstReadAt (by decide) h')
      subst this
      obtain ⟨_, c', r', h1', h2', h3', _⟩ := h'
      obtain ⟨_, h | ⟨c, h1, _, h3⟩⟩ := h
      · rw [h1'] at h; cases h
      · rw [h3'] at h3; cases h3
    · have := halt_index_unique hq hn h'.1 (not_pass_of_deadlineAt hT h')
      subst this
      obtain ⟨_, c', h1', h2'⟩ := h'
      obtain ⟨_, h | ⟨c, h1, h2, _⟩⟩ := h
      · rw [h1'] at h; cases h
      · rw [h1'] at h1; cases h1; omega
    · exact ho

theorem ReadChar_eq_loop (pByte T : Nat) (t0 : timeval) (cs : List timeval) (w : World)
    (hclock : w.clock = t0 :: cs) :
    ReadChar pByte T w = ReadChar.loop pByte T ⟨t0⟩ cs w := by
  simp [ReadChar, hclock]

/-- C1.  `ReadChar` over the iterations of its loop, iteration `i` being the
clock sample `cs[i]` (taken after the start instant `t0`) followed, when the
sample passes the loop condition, by the read answer `reads[i]`, every read
returning -1, 0 or 1.  It returns 1 exactly when the first non-zero read
result is 1; it throws `ErrorReadException` exactly when the first non-zero
read result is -1; it throws `TimeoutException` exactly when `T > 0` and a
sample of at least `T` ms is observed while every earlier read returned 0
(so never when `T = 0`, and never before such a sample); it returns no other
value than 1; and the read that gives the first non-zero result is the last
one issued. -/
theorem ReadChar_outcome (pByte T : Nat) (t0 : timeval) (cs : List timeval) (w : World)
    (hclock : w.clock = t0 :: cs)
    (hdom : ∀ r ∈ w.reads, r.ret = -1 ∨ r.ret = 0 ∨ r.ret = 1) :
    ((ReadChar pByte T w).1 = .ret 1 ↔ ∃ i, firstReadAt T ⟨t0⟩ cs w.reads 1 i) ∧
    ((ReadChar pByte T w).1 = .throw .ErrorReadException ↔
      ∃ i, firstReadAt T ⟨t0⟩ cs w.reads (-1) i) ∧
    ((ReadChar pByte T w).1 = .throw .TimeoutException ↔
      0 < T ∧ ∃ i, deadlineAt T ⟨t0⟩ cs w.reads i) ∧
    (∀ v, (ReadChar pByte T w).1 = .ret v → v = 1) ∧
    (∀ i v, v ≠ 0 → firstReadAt T ⟨t0⟩ cs w.reads v i →
      (ReadChar pByte T w).2.reads = w.reads.drop (i + 1)) := by
  rw [ReadChar_eq_loop pByte T t0 cs w hclock]
  have hev := ReadChar_loop_event pByte T ⟨t0⟩ cs w hdom
  obtain ⟨k1, k2, k3, k4⟩ := ReadChar_loop_outcome pByte T ⟨t0⟩ cs w hdom
  refine ⟨⟨?_, ?_⟩, ⟨?_, ?_⟩, ⟨?_, ?_⟩, ?_, ?_⟩
  · intro ho
    rcases hev with ⟨j, h', _, _⟩ | ⟨j, _, ho', _⟩ | ⟨j, _, _, ho'⟩ | ⟨j, _, ho'⟩
    · exact ⟨j, h'⟩
    · rw [ho] at ho'; cases ho'
    · rw [ho] at ho'; cases ho'
    · rw [ho] at ho'; cases ho'
  · rintro ⟨i, h⟩
    exact (k1 i h).1
  · intro ho
    rcases hev with ⟨j, _, ho', _⟩ | ⟨j, h', _, _⟩ | ⟨j, _, _, ho'⟩ | ⟨j, _, ho'⟩
    · rw [ho] at ho'; cases ho'
    · exact ⟨j, h'⟩
    · rw [ho] at ho'; cases ho'
    · rw [ho] at ho'; cases ho'
  · rintro ⟨i, h⟩
    exact (k2 i h).1
  · intro ho
    rcases hev with ⟨j, _, ho', _⟩ | ⟨j, _, ho', _⟩ | ⟨j, hT, h', _⟩ | ⟨j, _, ho'⟩
    · rw [ho] at ho'; cases ho'
    · rw [ho] at ho'; cases ho'
    · exact ⟨hT, j, h'⟩
    · rw [ho] at ho'; cases ho'
  · rintro ⟨hT, i, h⟩
    exact k3 i hT h
  · intro v ho
    rcases hev with ⟨j, _, ho', _⟩ | ⟨j, _, ho', _⟩ | ⟨j, _, _, ho'⟩ | ⟨j, _, ho'⟩
    · rw [ho] at ho'; cases ho'; rfl
    · rw [ho] at ho'; cases ho'
    · rw [ho] at ho'; cases ho'
    · rw [ho] at ho'; cases ho'
  · intro i v hv h
    obtain ⟨hq, c, r, h1, h2, h3, h4⟩ := h
    have hr := hdom r (List.getElem?_mem h3)
    rcases hr with hr | hr | hr
    · exact (k2 i ⟨hq, c, r, h1, h2, h3, hr⟩).2
    · exact absurd (h4 ▸ hr) hv
    · exact (k1 i ⟨hq, c, r, h1, h2, h3, hr⟩).2

/-- The hypotheses of `ReadChar_outcome` hold for a call with a 5 ms timeout whose
clock shows 1 ms and 2 ms and whose reads return 0 and then 1. -/
theorem ReadChar_outcome_witness :
    (∀ r ∈ [(⟨0, []⟩ : OsRead), ⟨1, [65]⟩], r.ret = -1 ∨ r.ret = 0 ∨ r.ret = 1) ∧
    ((ReadChar 0 5 ⟨[⟨10, 0⟩, ⟨10, 1000⟩, ⟨10, 2000⟩], [⟨0, []⟩, ⟨1, [65]⟩], [], []⟩).1
        = .throw .TimeoutException ↔
      0 < 5 ∧ ∃ i, deadlineAt 5 ⟨⟨10, 0⟩⟩ [⟨10, 1000⟩, ⟨10, 2000⟩]
        [⟨0, []⟩, ⟨1, [65]⟩] i) :=
  ⟨by decide,
   (ReadChar_outcome 0 5 ⟨10, 0⟩ [⟨10, 1000⟩, ⟨10, 2000⟩]
      ⟨[⟨10, 0⟩, ⟨10, 1000⟩, ⟨10, 2000⟩], [⟨0, []⟩, ⟨1, [65]⟩], [], []⟩ rfl
      (by decide)).2.2.1⟩

/-! ## Opening and closing -/

/-- C8 as stated fails.  Baud 1234 is outside the set.  On a path that
cannot be opened `Open` throws `ErrorOpeningException`, not
`ErrorSpeedException`; on a path that can be opened the baud is rejected only
after `open`, `fcntl` and `tcgetattr` were issued, and descriptor 3 stays
open. -/
theorem Open_checks_baud_after_open :
    (Serial.Open (Serial.ctor 0) "/dev/absent" 1234 ⟨["/dev/ttyS0"], [0, 1, 2], []⟩).1
      = .throw .ErrorOpeningException ∧
    Serial.Open (Serial.ctor 0) "/dev/ttyS0" 1234 ⟨["/dev/ttyS0"], [0, 1, 2], []⟩
      = (.throw .ErrorSpeedException, ⟨3⟩,
          ⟨["/dev/ttyS0"], [3, 0, 1, 2], [.open_ "/dev/ttyS0", .fcntl 3, .tcgetattr 3]⟩) := by
  decide

/-- C9, at the failing inputs.  (a) A `Serial` of static storage duration is
zero-initialised and its constructor leaves `fd` at 0: `Close` (and so the
destructor) on this never-opened channel releases descriptor 0.  (b) After
`Open` and `Close` the member `fd` still holds 3; once another `open` of the
process has been given descriptor 3, a second `Close` releases that foreign
descriptor.  In both cases `close(fd)` is issued. -/
theorem Close_releases_descriptor_of_closed_channel :
    Serial.Close (Serial.ctor 0) ⟨[], [0, 1, 2], []⟩
      = (⟨0⟩, ⟨[], [1, 2], [.close 0]⟩) ∧
    Serial.dtor (Serial.ctor 0) ⟨[], [0, 1, 2], []⟩ = ⟨[], [1, 2], [.close 0]⟩ ∧
    (let k0 : Kernel := ⟨["/dev/ttyS0", "/tmp/log"], [0, 1, 2], []⟩
     let opened := Serial.Open (Serial.ctor 0) "/dev/ttyS0" 9600 k0
     let closed := Serial.Close opened.2.1 opened.2.2
     let other := sys_open "/tmp/log" closed.2
     let again := Serial.Close closed.1 other.2
     opened.1 = .ret () ∧ closed.1.fd = 3 ∧ closed.2.fds = [0, 1, 2] ∧
     other.1 = 3 ∧ other.2.fds = [3, 0, 1, 2] ∧
     again.2.fds = [0, 1, 2] ∧ again.2.trace.getLast? = some (.close 3)) := by
  decide

theorem Speed_eq_none_iff (Bauds : Nat) : Speed Bauds = none ↔ Bauds ∉ supportedBauds := by
  constructor
  · intro h hm
    simp only [supportedBauds, List.mem_cons, List.mem_singleton, List.not_mem_nil, or_false] at hm
    rcases hm with hm | hm | hm | hm | hm | hm | hm | hm | hm | hm | hm <;>
      (subst hm; simp [Speed] at h)
  · intro h
    simp only [supportedBauds, List.mem_cons, List.mem_singleton, List.not_mem_nil, or_false, not_or] at h
    obtain ⟨h1, h2, h3, h4, h5, h6, h7, h8, h9, h10, h11⟩ := h
    simp only [Speed, h1, h2, h3, h4, h5, h6, h7, h8, h9, h10, h11, if_false]

theorem lowestFree_ne_minus_one (fds : List Int) : lowestFree fds ≠ -1 := by
  unfold lowestFree
  intro h
  have h0 := Int.ofNat_nonneg (((List.range (fds.length + 1)).find?
    (fun n => decide (Int.ofNat n ∉ fds))).getD fds.length)
  have h1 : (0 : Int) ≤ -1 := h ▸ h0
  exact absurd h1 (by decide)

/-- C8, amended.  For a baud value outside the set of the `case` labels,
`Open` throws `ErrorOpeningException` when the device cannot be opened (only
`open` has been issued, no descriptor is held), and otherwise throws
`ErrorSpeedException` after `open`, `fcntl` and `tcgetattr` have been issued
and before any `tcsetattr`, with the new descriptor still open and kept in
`fd`.  For a baud value in the set, `Open` does not throw
`ErrorSpeedException`. -/
theorem Open_baud_validation (self : Serial) (Device : String) (Bauds : Nat) (k : Kernel) :
    (Bauds ∉ supportedBauds → Device ∉ k.devices →
      self.Open Device Bauds k =
        (.throw .ErrorOpeningException, ⟨-1⟩,
          { k with trace := k.trace ++ [.open_ Device] })) ∧
    (Bauds ∉ supportedBauds → Device ∈ k.devices →
      self.Open Device Bauds k =
        (.throw .ErrorSpeedException, ⟨lowestFree k.fds⟩,
          { k with fds := lowestFree k.fds :: k.fds,
                   trace := k.trace ++ [.open_ Device, .fcntl (lowestFree k.fds),
                                        .tcgetattr (lowestFree k.fds)] })) ∧
    (Bauds ∈ supportedBauds →
      (self.Open Device Bauds k).1 ≠ .throw .ErrorSpeedException) := by
  refine ⟨?_, ?_, ?_⟩
  · intro _ hd
    simp [Serial.Open, sys_open, hd]
  · intro hb hd
    have hs := (Speed_eq_none_iff Bauds).2 hb
    simp [Serial.Open, sys_open, hd, lowestFree_ne_minus_one, hs, sys_log]
  · intro hb
    have hs : Speed Bauds ≠ none := fun h => (Speed_eq_none_iff Bauds).1 h hb
    obtain ⟨sp, hsp⟩ := Option.ne_none_iff_exists'.1 hs
    by_cases hd : Device ∈ k.devices
    · simp [Serial.Open, sys_open, hd, lowestFree_ne_minus_one, hsp]
    · simp [Serial.Open, sys_open, hd]

/-- The hypotheses of `Open_baud_validation` hold for the bauds 1234 and 9600 on
a device that can be opened. -/
theorem Open_baud_validation_witness :
    (1234 ∉ supportedBauds ∧ "/dev/ttyS0" ∈ ["/dev/ttyS0"] ∧ 9600 ∈ supportedBauds) ∧
    (Serial.Open ⟨0⟩ "/dev/ttyS0" 1234 ⟨["/dev/ttyS0"], [0, 1, 2], []⟩ =
        (.throw .ErrorSpeedException, ⟨lowestFree [0, 1, 2]⟩,
          ⟨["/dev/ttyS0"], lowestFree [0, 1, 2] :: [0, 1, 2],
            [] ++ [.open_ "/dev/ttyS0", .fcntl (lowestFree [0, 1, 2]),
                   .tcgetattr (lowestFree [0, 1, 2])]⟩)) ∧
    (Serial.Open ⟨0⟩ "/dev/ttyS0" 9600 ⟨["/dev/ttyS0"], [0, 1, 2], []⟩).1
      ≠ .throw .ErrorSpeedException :=
  ⟨by decide,
   (Open_baud_validation ⟨0⟩ "/dev/ttyS0" 1234 ⟨["/dev/ttyS0"], [0, 1, 2], []⟩).2.1
      (by decide) (by decide),
   (Open_baud_validation ⟨0⟩ "/dev/ttyS0" 9600 ⟨["/dev/ttyS0"], [0, 1, 2], []⟩).2.2
      (by decide)⟩

/-! ## `ReadString`: the two defects of the bounded variant -/

/-- C10, at the failing input.  `ReadString(String, '\n', MaxNbBytes = 1,
TimeOut_ms = 5)` on a one-byte buffer: the byte 'a' is stored at index 0 in
time, the elapsed-time check that follows finds 7 ms > 5 ms, and the NUL
is stored at index 1 = `MaxNbBytes`, one past the end of the buffer. -/
theorem ReadString_stores_past_the_buffer :
    ReadString 0 10 1 5
        ⟨[⟨100, 0⟩, ⟨100, 0⟩, ⟨100, 0⟩, ⟨100, 1000⟩, ⟨100, 7000⟩],
         [⟨1, [97]⟩], [], [(0, [85])]⟩
      = (.throw .TimeoutException,
          ⟨[], [], [1], [(1, [0]), (0, [97]), (0, [85])]⟩) ∧
    written [(1, [0]), (0, [97]), (0, [85])] 1 ∧ ¬ (1 < 1) := by
  refine ⟨by decide, ⟨(1, [0]), by simp, by simp, by simp⟩, by decide⟩

/-- C4, at the failing input.  `ReadString(String, '\n', MaxNbBytes = 4,
TimeOut_ms = 5)` on a buffer filled with 0x55: the peer sends 'a' and then
nothing.  The inner `ReadChar` runs into its own deadline and its
`TimeoutException` leaves `ReadString` at once: index 0 holds 'a', index 1
still holds 0x55, no NUL was stored.  On the sibling path, where the outer
check is the one that fires, the NUL is stored at index 1. -/
theorem ReadString_inner_timeout_leaves_no_terminator :
    (ReadString 0 10 4 5
        ⟨[⟨100, 0⟩, ⟨100, 0⟩, ⟨100, 0⟩, ⟨100, 0⟩, ⟨100, 1000⟩, ⟨100, 1000⟩, ⟨100, 1000⟩,
          ⟨100, 2000⟩, ⟨100, 9000⟩],
         [⟨1, [97]⟩, ⟨0, []⟩], [], [(0, [85, 85, 85, 85])]⟩).1
      = .throw .TimeoutException ∧
    load (ReadString 0 10 4 5
        ⟨[⟨100, 0⟩, ⟨100, 0⟩, ⟨100, 0⟩, ⟨100, 0⟩, ⟨100, 1000⟩, ⟨100, 1000⟩, ⟨100, 1000⟩,
          ⟨100, 2000⟩, ⟨100, 9000⟩],
         [⟨1, [97]⟩, ⟨0, []⟩], [], [(0, [85, 85, 85, 85])]⟩).2.mem 0 = some 97 ∧
    load (ReadString 0 10 4 5
        ⟨[⟨100, 0⟩, ⟨100, 0⟩, ⟨100, 0⟩, ⟨100, 0⟩, ⟨100, 1000⟩, ⟨100, 1000⟩, ⟨100, 1000⟩,
          ⟨100, 2000⟩, ⟨100, 9000⟩],
         [⟨1, [97]⟩, ⟨0, []⟩], [], [(0, [85, 85, 85, 85])]⟩).2.mem 1 = some 85 ∧
    (ReadString 0 10 4 5
        ⟨[⟨100, 0⟩, ⟨100, 0⟩, ⟨100, 0⟩, ⟨100, 0⟩, ⟨100, 9000⟩],
         [⟨1, [97]⟩, ⟨0, []⟩], [], [(0, [85, 85, 85, 85])]⟩).1
      = .throw .TimeoutException ∧
    load (ReadString 0 10 4 5
        ⟨[⟨100, 0⟩, ⟨100, 0⟩, ⟨100, 0⟩, ⟨100, 0⟩, ⟨100, 9000⟩],
         [⟨1, [97]⟩, ⟨0, []⟩], [], [(0, [85, 85, 85, 85])]⟩).2.mem 1 = some 0 := by
  decide

/-! ## Delivery of one byte -/

theorem store_nil (mem : List (Nat × List Nat)) (ptr : Nat) : store mem ptr [] = mem := by
  simp [store]

theorem store_one (mem : List (Nat × List Nat)) (ptr b : Nat) :
    store mem ptr [b] = (ptr, [b]) :: mem := by
  simp [store]

/-- A `ReadChar` whose samples all pass the loop condition, against a peer
that delivers `b` after `idle` empty polls, returns 1 with `b` stored. -/
theorem ReadChar_loop_burst (pByte T b : Nat) (Timer : TimeOut) (rest : List OsRead) :
    ∀ (idle : Nat) (cs : List timeval) (w : World),
      w.reads = burst idle b ++ rest → idle + 1 ≤ cs.length →
      (∀ c ∈ cs.take (idle + 1), Timer.ElapsedTime_ms c < T ∨ T = 0) →
      ∃ asked, ReadChar.loop pByte T Timer cs w
        = (.ret 1, ⟨cs.drop (idle + 1), rest, asked, (pByte, [b]) :: w.mem⟩) := by
  intro idle
  induction idle with
  | zero =>
    intro cs w hr hlen hg
    cases cs with
    | nil => simp at hlen
    | cons c cs =>
      have hc := hg c (by simp)
      have hr' : w.reads = ⟨1, [b]⟩ :: rest := by simpa [burst] using hr
      exact ⟨1 :: w.asked, by simp [ReadChar.loop, hc, sys_read, hr', store]⟩
  | succ idle ih =>
    intro cs w hr hlen hg
    cases cs with
    | nil => simp at hlen
    | cons c cs =>
      have hc := hg c (by simp)
      have hr' : w.reads = ⟨0, []⟩ :: (burst idle b ++ rest) := by
        simpa [burst, List.replicate_succ] using hr
      obtain ⟨asked, h⟩ := ih cs
        { clock := cs, reads := burst idle b ++ rest, asked := 1 :: w.asked, mem := w.mem }
        rfl (by simpa using hlen)
        (fun c' hc' => hg c' (by
          rw [List.take_succ_cons]; exact List.mem_cons_of_mem _ hc'))
      refine ⟨asked, ?_⟩
      simp only [ReadChar.loop, hc, sys_read, hr', if_true]
      simpa [store] using h

theorem load_cons_one (mem : List (Nat × List Nat)) (a b : Nat) :
    load ((a, [b]) :: mem) a = some b := by
  simp [load]

theorem afterChar_other (String D Nb b : Nat) (w : World) (mem : List (Nat × List Nat))
    (hm : w.mem = (String + Nb, [b]) :: mem) (hb : b ≠ D) :
    afterChar String D Nb 1 w = .go (Nb + 1, w) := by
  simp [afterChar, hm, load_cons_one, hb]

theorem afterChar_delimiter (String D Nb : Nat) (w : World) (mem : List (Nat × List Nat))
    (hm : w.mem = (String + Nb, [D]) :: mem) :
    afterChar String D Nb 1 w
      = .exit (.ret Nb, { w with mem := (String + Nb, [0]) :: w.mem }) := by
  simp [afterChar, hm, load_cons_one, store]

theorem feed_length_cons (cell : Nat × Nat) (cells : List (Nat × Nat)) :
    (feed (cell :: cells)).length = cell.1 + 1 + (feed cells).length := by
  simp [feed, burst]; omega

theorem ReadChar_burst (pByte T b idle : Nat) (ts : timeval) (cl : List timeval)
    (rest : List OsRead) (asked : List Nat) (mem : List (Nat × List Nat))
    (hlen : idle + 1 ≤ cl.length)
    (hg : ∀ c ∈ cl.take (idle + 1), (TimeOut.mk ts).ElapsedTime_ms c < T ∨ T = 0) :
    ∃ asked', ReadChar pByte T ⟨ts :: cl, burst idle b ++ rest, asked, mem⟩
      = (.ret 1, ⟨cl.drop (idle + 1), rest, asked', (pByte, [b]) :: mem⟩) := by
  obtain ⟨asked', h⟩ := ReadChar_loop_burst pByte T b ⟨ts⟩ rest idle cl
    ⟨ts :: cl, burst idle b ++ rest, asked, mem⟩ rfl hlen hg
  exact ⟨asked', by simpa [ReadChar] using h⟩

/-- The unbounded loop runs through a stream of non-delimiter bytes that fits
the buffer, storing each byte at the next index. -/
theorem ReadStringNoTimeOut_loop_advance (String D Max : Nat) (rest : List OsRead) :
    ∀ (cells : List (Nat × Nat)) (p Nb : Nat) (clock : List timeval) (asked : List Nat)
      (mem : List (Nat × List Nat)),
      Nb + cells.length ≤ Max → (∀ c ∈ cells, c.2 ≠ D) →
      (feed cells).length + cells.length ≤ clock.length →
      ∃ asked', ReadStringNoTimeOut.loop String D Max (cells.length + p) Nb
          ⟨clock, feed cells ++ rest, asked, mem⟩
        = ReadStringNoTimeOut.loop String D Max p (Nb + cells.length)
            ⟨clock.drop ((feed cells).length + cells.length), rest, asked',
              laid (String + Nb) (cells.map Prod.snd) ++ mem⟩ := by
  intro cells
  induction cells with
  | nil =>
    intro p Nb clock asked mem _ _ _
    exact ⟨asked, by simp [feed, laid]⟩
  | cons cell cells ih =>
    intro p Nb clock asked mem hfit hD hlen
    obtain ⟨idle, b⟩ := cell
    rw [feed_length_cons] at hlen
    simp only [List.length_cons] at hfit hlen
    have hNb : Nb < Max := by omega
    cases clock with
    | nil => simp at hlen
    | cons ts cl =>
      simp only [List.length_cons] at hlen
      obtain ⟨asked1, hrc⟩ := ReadChar_burst (String + Nb) 0 b idle ts cl (feed cells ++ rest)
        asked mem (by omega) (fun _ _ => Or.inr rfl)
      have hb : b ≠ D := hD (idle, b) (by simp)
      obtain ⟨asked2, hih⟩ := ih p (Nb + 1) (cl.drop (idle + 1)) asked1
        ((String + Nb, [b]) :: mem) (by omega) (fun c hc => hD c (by simp [hc]))
        (by simp only [List.length_drop]; omega)
      refine ⟨asked2, ?_⟩
      have hp : (((idle, b) :: cells).length + p) = (cells.length + p) + 1 := by
        simp only [List.length_cons]; omega
      have e1 : Nb + 1 + cells.length = Nb + ((idle, b) :: cells).length := by
        simp only [List.length_cons]; omega
      have e2 : List.drop ((feed cells).length + cells.length) (List.drop (idle + 1) cl)
          = List.drop ((feed ((idle, b) :: cells)).length + ((idle, b) :: cells).length)
              (ts :: cl) := by
        simp only [feed_length_cons, List.length_cons, List.drop_drop]
        rw [show idle + 1 + (feed cells).length + (cells.length + 1)
            = (idle + 1 + ((feed cells).length + cells.length)) + 1 by omega,
          List.drop_succ_cons]
      have e3 : laid (String + (Nb + 1)) (cells.map Prod.snd) ++ (String + Nb, [b]) :: mem
          = laid (String + Nb) (((idle, b) :: cells).map Prod.snd) ++ mem := by
        simp [laid, Nat.add_assoc]
      rw [e1, e2, e3] at hih
      rw [hp, ← hih]
      have hfeed : feed ((idle, b) :: cells) ++ rest = burst idle b ++ (feed cells ++ rest) := by
        simp [feed]
      rw [hfeed]
      simp only [ReadStringNoTimeOut.loop, hNb, if_true, ReadChar.default_TimeOut_ms, hrc]
      rw [afterChar_other String D Nb b _ mem rfl hb]

/-! ## The clock of a call that stays before its deadline -/

theorem steady_mono {lo lo' hi : Int} {cs : List timeval}
    (h : steady lo hi cs) (hlo : lo' ≤ lo) : steady lo' hi cs := by
  cases cs with
  | nil => trivial
  | cons c cs =>
    obtain ⟨h1, h2, h3, h4⟩ := h
    exact ⟨h1, by omega, h3, h4⟩

theorem steady_tail {lo hi : Int} {c : timeval} {cs : List timeval}
    (h : steady lo hi (c :: cs)) : steady lo hi cs :=
  steady_mono h.2.2.2 h.2.1

theorem steady_mem {hi : Int} {c : timeval} :
    ∀ {cs : List timeval} {lo : Int}, steady lo hi cs → c ∈ cs →
      c.normal ∧ lo ≤ c.us ∧ c.us < hi := by
  intro cs
  induction cs with
  | nil => intro _ _ hc; cases hc
  | cons c' cs ih =>
    intro lo h hc
    rcases List.mem_cons.1 hc with rfl | hc
    · exact ⟨h.1, h.2.1, h.2.2.1⟩
    · exact ih (steady_tail h) hc

theorem steady_drop {hi : Int} (n : Nat) :
    ∀ {cs : List timeval} {lo : Int}, steady lo hi cs → steady lo hi (cs.drop n) := by
  induction n with
  | zero => intro cs lo h; simpa using h
  | succ n ih =>
    intro cs lo h
    cases cs with
    | nil => simpa using h
    | cons c cs => simpa using ih (steady_tail h)

/-- The elapsed time of a sample that is not earlier than the start and
less than 2^31 ms after it. -/
theorem ElapsedTime_ms_of_near (a c : timeval) (ha : a.normal) (hc : c.normal)
    (hac : a.us ≤ c.us) (hnear : c.us < a.us + 2147483648000) :
    ((TimeOut.mk a).ElapsedTime_ms c : Int) = (c.us - a.us) / 1000 :=
  ElapsedTime_ms_exact a c ha hc hac (by omega)

/-- The remaining time that `ReadString` passes to `ReadChar`. -/
theorem remaining_eq (T e : Nat) (hT : T < 4294967296) (he : e < T) :
    toInt64 (toUInt64 ((T : Int) - (e : Int))) = (T : Int) - (e : Int) ∧
    toUInt32 (toInt64 (toUInt64 ((T : Int) - (e : Int)))) = T - e := by
  have h1 : toInt64 (toUInt64 ((T : Int) - (e : Int))) = (T : Int) - (e : Int) := by
    unfold toInt64 toUInt64; omega
  refine ⟨h1, ?_⟩
  rw [h1]
  unfold toUInt32
  omega


/-- One attempt of the bounded loop, before the deadline, against a peer
that delivers `b` after `idle` empty polls: `ReadChar` returns 1 with `b`
stored at the current index. -/
theorem ReadString_attempt_burst (String D T Nb b idle : Nat) (t0 c1 ts : timeval)
    (cl : List timeval) (rest : List OsRead) (asked : List Nat)
    (mem : List (Nat × List Nat)) (lo hi : Int)
    (hT : T < 4294967296) (h0 : t0.normal) (hlo : t0.us ≤ lo)
    (hhi : hi ≤ t0.us + 1000 * (T : Int)) (hhi' : hi ≤ t0.us + 2147483648000)
    (hs : steady lo hi (c1 :: ts :: cl)) (hlen : idle + 1 ≤ cl.length) :
    ∃ asked', ReadString.attempt String D T ⟨t0⟩ Nb
        ⟨c1 :: ts :: cl, burst idle b ++ rest, asked, mem⟩
      = afterChar String D Nb 1 ⟨cl.drop (idle + 1), rest, asked', (String + Nb, [b]) :: mem⟩ := by
  obtain ⟨n1, l1, u1, hs1⟩ := hs
  obtain ⟨n2, l2, u2, hs2⟩ := hs1
  have e1 := ElapsedTime_ms_of_near t0 c1 h0 n1 (by omega) (by omega)
  have he : (TimeOut.mk t0).ElapsedTime_ms c1 < T := by
    have : ((TimeOut.mk t0).ElapsedTime_ms c1 : Int) < T := by rw [e1]; omega
    exact_mod_cast this
  have hg : ∀ c ∈ cl.take (idle + 1),
      (TimeOut.mk ts).ElapsedTime_ms c < T - (TimeOut.mk t0).ElapsedTime_ms c1
        ∨ T - (TimeOut.mk t0).ElapsedTime_ms c1 = 0 := by
    intro c hc
    obtain ⟨n3, l3, u3⟩ := steady_mem hs2 (List.mem_of_mem_take hc)
    have e3 := ElapsedTime_ms_of_near ts c n2 n3 l3 (by omega)
    left
    have : ((TimeOut.mk ts).ElapsedTime_ms c : Int)
        < (T : Int) - ((TimeOut.mk t0).ElapsedTime_ms c1 : Int) := by
      rw [e3, e1]; omega
    omega
  obtain ⟨asked', hrc⟩ := ReadChar_burst (String + Nb)
    (T - (TimeOut.mk t0).ElapsedTime_ms c1) b idle ts cl rest asked mem hlen hg
  refine ⟨asked', ?_⟩
  have hpos : (T : Int) - ((TimeOut.mk t0).ElapsedTime_ms c1 : Int) > 0 := by omega
  obtain ⟨r1, r2⟩ := remaining_eq T _ hT he
  simp only [ReadString.attempt, r2]
  simp only [r1, hpos, if_true, hrc]

/-- The elapsed-time check of the bounded loop lets a sample before the
deadline through. -/
theorem ReadString_expired_go (String T Nb : Nat) (t0 c2 : timeval) (cl : List timeval)
    (reads : List OsRead) (asked : List Nat) (mem : List (Nat × List Nat)) (lo hi : Int)
    (h0 : t0.normal) (hlo : t0.us ≤ lo)
    (hhi : hi ≤ t0.us + 1000 * (T : Int)) (hhi' : hi ≤ t0.us + 2147483648000)
    (hs : steady lo hi (c2 :: cl)) :
    ReadString.expired String T ⟨t0⟩ Nb ⟨c2 :: cl, reads, asked, mem⟩
      = .go ⟨cl, reads, asked, mem⟩ := by
  obtain ⟨n1, l1, u1, _⟩ := hs
  have e1 := ElapsedTime_ms_of_near t0 c2 h0 n1 (by omega) (by omega)
  have he : ¬ (TimeOut.mk t0).ElapsedTime_ms c2 > T := by
    have : ((TimeOut.mk t0).ElapsedTime_ms c2 : Int) < T := by rw [e1]; omega
    omega
  simp only [ReadString.expired, he, if_false]

/-- The bounded loop, before the deadline, runs through a stream of
non-delimiter bytes that fits the buffer, storing each byte at the next
index. -/
theorem ReadString_loop_advance (String D Max T : Nat) (t0 : timeval) (rest : List OsRead)
    (hi : Int) (hT : T < 4294967296) (h0 : t0.normal)
    (hhi : hi ≤ t0.us + 1000 * (T : Int)) (hhi' : hi ≤ t0.us + 2147483648000) :
    ∀ (cells : List (Nat × Nat)) (p Nb : Nat) (clock : List timeval) (asked : List Nat)
      (mem : List (Nat × List Nat)) (lo : Int),
      Nb + cells.length ≤ Max → (∀ c ∈ cells, c.2 ≠ D) →
      t0.us ≤ lo → steady lo hi clock →
      (feed cells).length + 3 * cells.length ≤ clock.length →
      ∃ asked', ReadString.loop String D Max T ⟨t0⟩ (cells.length + p) Nb
          ⟨clock, feed cells ++ rest, asked, mem⟩
        = ReadString.loop String D Max T ⟨t0⟩ p (Nb + cells.length)
            ⟨clock.drop ((feed cells).length + 3 * cells.length), rest, asked',
              laid (String + Nb) (cells.map Prod.snd) ++ mem⟩ := by
  intro cells
  induction cells with
  | nil =>
    intro p Nb clock asked mem lo _ _ _ _ _
    exact ⟨asked, by simp [feed, laid]⟩
  | cons cell cells ih =>
    intro p Nb clock asked mem lo hfit hD hlo hs hlen
    obtain ⟨idle, b⟩ := cell
    rw [feed_length_cons] at hlen
    simp only [List.length_cons] at hfit hlen
    have hNb : Nb < Max := by omega
    match clock, hs, hlen with
    | [], _, hlen => simp at hlen
    | [_], _, hlen => simp at hlen; omega
    | c1 :: ts :: cl, hs, hlen =>
      simp only [List.length_cons] at hlen
      obtain ⟨asked1, hat⟩ := ReadString_attempt_burst String D T Nb b idle t0 c1 ts cl
        (feed cells ++ rest) asked mem lo hi hT h0 hlo hhi hhi' hs (by omega)
      have hb : b ≠ D := hD (idle, b) (by simp)
      rw [afterChar_other String D Nb b _ mem rfl hb] at hat
      have hs2 : steady lo hi (cl.drop (idle + 1)) :=
        steady_drop (idle + 1) (steady_tail (steady_tail hs))
      have hl2 : (cl.drop (idle + 1)).length = cl.length - (idle + 1) := List.length_drop _ _
      cases hd : cl.drop (idle + 1) with
      | nil => rw [hd] at hl2; simp at hl2; omega
      | cons c2 cl' =>
        rw [hd] at hs2 hl2 hat
        simp only [List.length_cons] at hl2
        have hex := ReadString_expired_go String T (Nb + 1) t0 c2 cl' (feed cells ++ rest)
          asked1 ((String + Nb, [b]) :: mem) lo hi h0 hlo hhi hhi' hs2
        obtain ⟨asked2, hih⟩ := ih p (Nb + 1) cl' asked1 ((String + Nb, [b]) :: mem) lo
          (by omega) (fun c hc => hD c (by simp [hc])) hlo (steady_tail hs2) (by omega)
        refine ⟨asked2, ?_⟩
        have hp : (((idle, b) :: cells).length + p) = (cells.length + p) + 1 := by
          simp only [List.length_cons]; omega
        have e1 : Nb + 1 + cells.length = Nb + ((idle, b) :: cells).length := by
          simp only [List.length_cons]; omega
        have hcl' : cl' = cl.drop (idle + 2) := by
          have : (cl.drop (idle + 1)).drop 1 = cl' := by rw [hd]; rfl
          rw [← this, List.drop_drop]
        have e2 : List.drop ((feed cells).length + 3 * cells.length) cl'
            = List.drop ((feed ((idle, b) :: cells)).length + 3 * ((idle, b) :: cells).length)
                (c1 :: ts :: cl) := by
          rw [hcl']
          simp only [feed_length_cons, List.length_cons, List.drop_drop]
          rw [show idle + 1 + (feed cells).length + 3 * (cells.length + 1)
              = (idle + 2 + ((feed cells).length + 3 * cells.length)) + 1 + 1 by omega,
            List.drop_succ_cons, List.drop_succ_cons]
        have e3 : laid (String + (Nb + 1)) (cells.map Prod.snd) ++ (String + Nb, [b]) :: mem
            = laid (String + Nb) (((idle, b) :: cells).map Prod.snd) ++ mem := by
          simp [laid, Nat.add_assoc]
        rw [e1, e2, e3] at hih
        rw [hp, ← hih]
        have hfeed : feed ((idle, b) :: cells) ++ rest
            = burst idle b ++ (feed cells ++ rest) := by
          simp [feed]
        rw [hfeed]
        rw [ReadString.loop]
        simp only [hNb, if_true, hat, hex]

/-! ## What the buffer holds -/

theorem load_laid_below (mem : List (Nat × List Nat)) :
    ∀ (bs : List Nat) (a x : Nat), x < a → load (laid a bs ++ mem) x = load mem x := by
  intro bs
  induction bs generalizing mem with
  | nil => intro a x _; simp [laid]
  | cons b bs ih =>
    intro a x hx
    have : laid a (b :: bs) ++ mem = laid (a + 1) bs ++ ((a, [b]) :: mem) := by
      simp [laid]
    rw [this, ih ((a, [b]) :: mem) (a + 1) x (by omega)]
    have hn : ¬ (a ≤ x ∧ x < a + 1) := by omega
    simp [load, hn]

theorem load_laid (mem : List (Nat × List Nat)) :
    ∀ (bs : List Nat) (a i : Nat), i < bs.length →
      load (laid a bs ++ mem) (a + i) = bs[i]? := by
  intro bs
  induction bs generalizing mem with
  | nil => intro a i hi; simp at hi
  | cons b bs ih =>
    intro a i hi
    have : laid a (b :: bs) ++ mem = laid (a + 1) bs ++ ((a, [b]) :: mem) := by
      simp [laid]
    rw [this]
    cases i with
    | zero =>
      rw [load_laid_below ((a, [b]) :: mem) bs (a + 1) (a + 0) (by omega)]
      simp [load]
    | succ i =>
      have h := ih ((a, [b]) :: mem) (a + 1) i (by simpa using hi)
      rw [show a + (i + 1) = a + 1 + i by omega, h]
      simp

/-- The buffer after a successful string read: the bytes in order, then NUL. -/
theorem load_terminated (mem : List (Nat × List Nat)) (String D : Nat) (bs : List Nat) :
    (∀ i, i < bs.length →
      load ((String + bs.length, [0]) :: (String + bs.length, [D]) :: (laid String bs ++ mem))
        (String + i) = bs[i]?) ∧
    load ((String + bs.length, [0]) :: (String + bs.length, [D]) :: (laid String bs ++ mem))
      (String + bs.length) = some 0 := by
  refine ⟨?_, by simp [load]⟩
  intro i hi
  have hn : ¬ (String + bs.length ≤ String + i ∧ String + i < String + bs.length + 1) := by
    omega
  simp only [load, List.length_singleton, hn, if_false]
  exact load_laid mem bs String i hi

/-! ## `ReadString`: delimiter found -/

/-- The run of `ReadString` on a stream whose first delimiter comes after
`cells.length` bytes that fit the buffer. -/
theorem ReadString_delimiter_run (String D Max T idle : Nat) (cells : List (Nat × Nat))
    (rest : List OsRead) (t0 : timeval) (cs : List timeval) (hi : Int)
    (asked : List Nat) (mem : List (Nat × List Nat))
    (hT : T < 4294967296) (hk : cells.length < Max) (hD : ∀ c ∈ cells, c.2 ≠ D)
    (hlen : (feed cells).length + 3 * cells.length + idle + 3 ≤ cs.length)
    (htime : T = 0 ∨ (t0.normal ∧ hi ≤ t0.us + 1000 * (T : Int) ∧
      hi ≤ t0.us + 2147483648000 ∧ steady t0.us hi cs)) :
    ∃ clock' asked', ReadString String D Max T
        ⟨t0 :: cs, feed cells ++ (burst idle D ++ rest), asked, mem⟩
      = (.ret cells.length, ⟨clock', rest, asked',
          (String + cells.length, [0]) :: (String + cells.length, [D]) ::
            (laid String (cells.map Prod.snd) ++ mem)⟩) := by
  by_cases hz : T = 0
  · subst hz
    obtain ⟨p, hp⟩ : ∃ p, (t0 :: cs).length = cells.length + (p + 1) :=
      ⟨cs.length - cells.length, by simp only [List.length_cons]; omega⟩
    obtain ⟨asked1, hadv⟩ := ReadStringNoTimeOut_loop_advance String D Max
      (burst idle D ++ rest) cells (p + 1) 0 (t0 :: cs) asked mem (by omega) hD
      (by simp only [List.length_cons]; omega)
    have hl : ((t0 :: cs).drop ((feed cells).length + cells.length)).length
        = (t0 :: cs).length - ((feed cells).length + cells.length) := List.length_drop _ _
    simp only [List.length_cons] at hl
    match hd : (t0 :: cs).drop ((feed cells).length + cells.length), hl with
    | [], hl => exfalso; simp only [List.length_nil] at hl; omega
    | ts :: cl, hl =>
      simp only [List.length_cons] at hl
      rw [hd] at hadv
      obtain ⟨asked2, hrc⟩ := ReadChar_burst (String + (0 + cells.length)) 0 D idle ts cl rest
        asked1 (laid (String + 0) (cells.map Prod.snd) ++ mem) (by omega)
        (fun _ _ => Or.inr rfl)
      refine ⟨cl.drop (idle + 1), asked2, ?_⟩
      have hlt : 0 + cells.length < Max := by omega
      have hstart : ReadString String D Max 0
            ⟨t0 :: cs, feed cells ++ (burst idle D ++ rest), asked, mem⟩
          = ReadStringNoTimeOut.loop String D Max (cells.length + (p + 1)) 0
              ⟨t0 :: cs, feed cells ++ (burst idle D ++ rest), asked, mem⟩ := by
        simp only [ReadString, if_true, ReadStringNoTimeOut, hp]
      rw [hstart, hadv, ReadStringNoTimeOut.loop]
      simp only [hlt, if_true, ReadChar.default_TimeOut_ms, hrc]
      rw [afterChar_delimiter String D (0 + cells.length) _ _ rfl]
      simp only [Nat.zero_add, Nat.add_zero]
  · rcases htime with h | ⟨h0, hhi, hhi', hs⟩
    · exact absurd h hz
    · obtain ⟨p, hp⟩ : ∃ p, cs.length = cells.length + (p + 1) :=
        ⟨cs.length - cells.length - 1, by omega⟩
      obtain ⟨asked1, hadv⟩ := ReadString_loop_advance String D Max T t0
        (burst idle D ++ rest) hi hT h0 hhi hhi' cells (p + 1) 0 cs asked mem t0.us
        (by omega) hD (le_refl _) hs (by omega)
      have hs' : steady t0.us hi (cs.drop ((feed cells).length + 3 * cells.length)) :=
        steady_drop _ hs
      have hl : (cs.drop ((feed cells).length + 3 * cells.length)).length
          = cs.length - ((feed cells).length + 3 * cells.length) := List.length_drop _ _
      match hd : cs.drop ((feed cells).length + 3 * cells.length), hl, hs' with
      | [], hl, _ => exfalso; simp only [List.length_nil] at hl; omega
      | [_], hl, _ => exfalso; simp only [List.length_singleton] at hl; omega
      | c1 :: ts :: cl, hl, hs' =>
        simp only [List.length_cons] at hl
        rw [hd] at hadv
        obtain ⟨asked2, hat⟩ := ReadString_attempt_burst String D T (0 + cells.length) D idle
          t0 c1 ts cl rest asked1 (laid (String + 0) (cells.map Prod.snd) ++ mem) t0.us hi
          hT h0 (le_refl _) hhi hhi' hs' (by omega)
        rw [afterChar_delimiter String D (0 + cells.length) _ _ rfl] at hat
        refine ⟨cl.drop (idle + 1), asked2, ?_⟩
        have hlt : 0 + cells.length < Max := by omega
        have hstart : ReadString String D Max T
              ⟨t0 :: cs, feed cells ++ (burst idle D ++ rest), asked, mem⟩
            = ReadString.loop String D Max T ⟨t0⟩ (cells.length + (p + 1)) 0
                ⟨cs, feed cells ++ (burst idle D ++ rest), asked, mem⟩ := by
          simp only [ReadString, hz, if_false, hp]
        rw [hstart, hadv, ReadString.loop]
        simp only [hlt, if_true, hat]
        simp only [Nat.zero_add, Nat.add_zero]

/-- C2, amended.  A stream delivered one byte per successful read, with any
number of empty polls before each byte, whose first delimiter `D` comes after
the `k = cells.length` bytes `cells.map Prod.snd`, with `k < MaxNbBytes`; no
read reports an error; the clock holds samples enough for the call; and
either `T = 0` (unbounded variant) or, in the bounded variant, the clock does
not run backward and every sample of the call lies before an instant `hi`
that is not later than the deadline `t0 + T` ms and less than 2^31 ms after
the start `t0` (the range in which the timer is exact).  Then `ReadString`
returns `k`, the buffer holds the `k` bytes at indexes `0..k-1` and NUL at
index `k`, and the read that delivered the delimiter is the last one
consumed. -/
theorem ReadString_delimiter (String D Max T idle : Nat) (cells : List (Nat × Nat))
    (rest : List OsRead) (t0 : timeval) (cs : List timeval) (hi : Int) (w : World)
    (hclock : w.clock = t0 :: cs)
    (hreads : w.reads = feed cells ++ (burst idle D ++ rest))
    (hT : T < 4294967296) (hk : cells.length < Max) (hD : ∀ c ∈ cells, c.2 ≠ D)
    (hlen : (feed cells).length + 3 * cells.length + idle + 3 ≤ cs.length)
    (htime : T = 0 ∨ (t0.normal ∧ hi ≤ t0.us + 1000 * (T : Int) ∧
      hi ≤ t0.us + 2147483648000 ∧ steady t0.us hi cs)) :
    (ReadString String D Max T w).1 = .ret cells.length ∧
    (∀ i, i < cells.length →
      load (ReadString String D Max T w).2.mem (String + i) = (cells.map Prod.snd)[i]?) ∧
    load (ReadString String D Max T w).2.mem (String + cells.length) = some 0 ∧
    (ReadString String D Max T w).2.reads = rest := by
  obtain ⟨clock, reads, asked, mem⟩ := w
  simp only at hclock hreads
  subst hclock hreads
  obtain ⟨clock', asked', h⟩ := ReadString_delimiter_run String D Max T idle cells rest t0 cs hi
    asked mem hT hk hD hlen htime
  rw [h]
  obtain ⟨m1, m2⟩ := load_terminated mem String D (cells.map Prod.snd)
  simp only [List.length_map] at m1 m2
  exact ⟨rfl, m1, m2, rfl⟩

/-- The hypotheses of `ReadString_delimiter` hold for the stream "abc" followed
by the delimiter, a four-byte buffer and a 20 ms timeout: the call returns 3
and the buffer holds 'a', 'b', 'c' and NUL. -/
theorem ReadString_delimiter_witness :
    ([(0, 97), (0, 98), (0, 99)] : List (Nat × Nat)).length < 4 ∧
    steady (timeval.us ⟨100, 0⟩) 100020000
      [⟨100, 0⟩, ⟨100, 0⟩, ⟨100, 0⟩, ⟨100, 1000⟩, ⟨100, 1000⟩, ⟨100, 1000⟩, ⟨100, 1000⟩,
        ⟨100, 2000⟩, ⟨100, 2000⟩, ⟨100, 2000⟩, ⟨100, 2000⟩, ⟨100, 3000⟩, ⟨100, 3000⟩,
        ⟨100, 3000⟩, ⟨100, 4000⟩] ∧
    (ReadString 0 10 4 20
      ⟨⟨100, 0⟩ :: [⟨100, 0⟩, ⟨100, 0⟩, ⟨100, 0⟩, ⟨100, 1000⟩, ⟨100, 1000⟩, ⟨100, 1000⟩, ⟨100, 1000⟩,
        ⟨100, 2000⟩, ⟨100, 2000⟩, ⟨100, 2000⟩, ⟨100, 2000⟩, ⟨100, 3000⟩, ⟨100, 3000⟩,
        ⟨100, 3000⟩, ⟨100, 4000⟩],
       feed [(0, 97), (0, 98), (0, 99)] ++ (burst 0 10 ++ []), [], []⟩).1 = .ret 3 ∧
    (∀ i, i < 3 → load (ReadString 0 10 4 20
      ⟨⟨100, 0⟩ :: [⟨100, 0⟩, ⟨100, 0⟩, ⟨100, 0⟩, ⟨100, 1000⟩, ⟨100, 1000⟩, ⟨100, 1000⟩, ⟨100, 1000⟩,
        ⟨100, 2000⟩, ⟨100, 2000⟩, ⟨100, 2000⟩, ⟨100, 2000⟩, ⟨100, 3000⟩, ⟨100, 3000⟩,
        ⟨100, 3000⟩, ⟨100, 4000⟩],
       feed [(0, 97), (0, 98), (0, 99)] ++ (burst 0 10 ++ []), [], []⟩).2.mem (0 + i) = [97, 98, 99][i]?) ∧
    load (ReadString 0 10 4 20
      ⟨⟨100, 0⟩ :: [⟨100, 0⟩, ⟨100, 0⟩, ⟨100, 0⟩, ⟨100, 1000⟩, ⟨100, 1000⟩, ⟨100, 1000⟩, ⟨100, 1000⟩,
        ⟨100, 2000⟩, ⟨100, 2000⟩, ⟨100, 2000⟩, ⟨100, 2000⟩, ⟨100, 3000⟩, ⟨100, 3000⟩,
        ⟨100, 3000⟩, ⟨100, 4000⟩],
       feed [(0, 97), (0, 98), (0, 99)] ++ (burst 0 10 ++ []), [], []⟩).2.mem (0 + 3) = some 0 :=
  have hs : steady (timeval.us ⟨100, 0⟩) 100020000
      [⟨100, 0⟩, ⟨100, 0⟩, ⟨100, 0⟩, ⟨100, 1000⟩, ⟨100, 1000⟩, ⟨100, 1000⟩, ⟨100, 1000⟩,
        ⟨100, 2000⟩, ⟨100, 2000⟩, ⟨100, 2000⟩, ⟨100, 2000⟩, ⟨100, 3000⟩, ⟨100, 3000⟩,
        ⟨100, 3000⟩, ⟨100, 4000⟩] := by
    simp only [steady, timeval.normal, timeval.us]; decide
  have h := ReadString_delimiter 0 10 4 20 0 [(0, 97), (0, 98), (0, 99)] [] ⟨100, 0⟩
      [⟨100, 0⟩, ⟨100, 0⟩, ⟨100, 0⟩, ⟨100, 1000⟩, ⟨100, 1000⟩, ⟨100, 1000⟩, ⟨100, 1000⟩,
        ⟨100, 2000⟩, ⟨100, 2000⟩, ⟨100, 2000⟩, ⟨100, 2000⟩, ⟨100, 3000⟩, ⟨100, 3000⟩,
        ⟨100, 3000⟩, ⟨100, 4000⟩]
      100020000
      ⟨⟨100, 0⟩ :: [⟨100, 0⟩, ⟨100, 0⟩, ⟨100, 0⟩, ⟨100, 1000⟩, ⟨100, 1000⟩, ⟨100, 1000⟩, ⟨100, 1000⟩,
        ⟨100, 2000⟩, ⟨100, 2000⟩, ⟨100, 2000⟩, ⟨100, 2000⟩, ⟨100, 3000⟩, ⟨100, 3000⟩,
        ⟨100, 3000⟩, ⟨100, 4000⟩],
       feed [(0, 97), (0, 98), (0, 99)] ++ (burst 0 10 ++ []), [], []⟩
      rfl rfl (by decide) (by decide) (by decide) (by decide)
      (Or.inr ⟨by decide, by decide, by decide, hs⟩)
  ⟨by decide, hs, h.1, h.2.1, h.2.2.1⟩

/-! ## `ReadString`: buffer exhausted -/

theorem ReadStringNoTimeOut_loop_full (String D Max Nb : Nat) (w : World) (h : ¬ Nb < Max) :
    ∀ p, ReadStringNoTimeOut.loop String D Max p Nb w
      = (.throw .ErrorBufferFullException, w) := by
  intro p
  cases p <;> simp only [ReadStringNoTimeOut.loop, h, if_false]

theorem ReadString_loop_full (String D Max T Nb : Nat) (Timer : TimeOut) (w : World)
    (h : ¬ Nb < Max) :
    ∀ p, ReadString.loop String D Max T Timer p Nb w
      = (.throw .ErrorBufferFullException, w) := by
  intro p
  cases p <;> simp only [ReadString.loop, h, if_false]

/-- The run of `ReadString` on a stream whose first `MaxNbBytes` bytes hold
no delimiter. -/
theorem ReadString_buffer_full_run (String D T : Nat) (cells : List (Nat × Nat))
    (rest : List OsRead) (t0 : timeval) (cs : List timeval) (hi : Int)
    (asked : List Nat) (mem : List (Nat × List Nat))
    (hT : T < 4294967296) (hD : ∀ c ∈ cells, c.2 ≠ D)
    (hlen : (feed cells).length + 3 * cells.length ≤ cs.length)
    (htime : T = 0 ∨ (t0.normal ∧ hi ≤ t0.us + 1000 * (T : Int) ∧
      hi ≤ t0.us + 2147483648000 ∧ steady t0.us hi cs)) :
    ∃ clock' asked', ReadString String D cells.length T
        ⟨t0 :: cs, feed cells ++ rest, asked, mem⟩
      = (.throw .ErrorBufferFullException,
          ⟨clock', rest, asked', laid String (cells.map Prod.snd) ++ mem⟩) := by
  by_cases hz : T = 0
  · subst hz
    obtain ⟨p, hp⟩ : ∃ p, (t0 :: cs).length = cells.length + p :=
      ⟨cs.length + 1 - cells.length, by simp only [List.length_cons]; omega⟩
    obtain ⟨asked1, hadv⟩ := ReadStringNoTimeOut_loop_advance String D cells.length
      rest cells p 0 (t0 :: cs) asked mem (by omega) hD
      (by simp only [List.length_cons]; omega)
    have hstart : ReadString String D cells.length 0 ⟨t0 :: cs, feed cells ++ rest, asked, mem⟩
        = ReadStringNoTimeOut.loop String D cells.length (cells.length + p) 0
            ⟨t0 :: cs, feed cells ++ rest, asked, mem⟩ := by
      simp only [ReadString, if_true, ReadStringNoTimeOut, hp]
    refine ⟨(t0 :: cs).drop ((feed cells).length + cells.length), asked1, ?_⟩
    rw [hstart, hadv]
    simp only [Nat.zero_add, Nat.add_zero]
    exact ReadStringNoTimeOut_loop_full String D cells.length cells.length _ (lt_irrefl _) p
  · rcases htime with h | ⟨h0, hhi, hhi', hs⟩
    · exact absurd h hz
    · obtain ⟨p, hp⟩ : ∃ p, cs.length = cells.length + p :=
        ⟨cs.length - cells.length, by omega⟩
      obtain ⟨asked1, hadv⟩ := ReadString_loop_advance String D cells.length T t0
        rest hi hT h0 hhi hhi' cells p 0 cs asked mem t0.us
        (by omega) hD (le_refl _) hs (by omega)
      have hstart : ReadString String D cells.length T
            ⟨t0 :: cs, feed cells ++ rest, asked, mem⟩
          = ReadString.loop String D cells.length T ⟨t0⟩ (cells.length + p) 0
              ⟨cs, feed cells ++ rest, asked, mem⟩ := by
        simp only [ReadString, hz, if_false, hp]
      refine ⟨cs.drop ((feed cells).length + 3 * cells.length), asked1, ?_⟩
      rw [hstart, hadv]
      simp only [Nat.zero_add, Nat.add_zero]
      exact ReadString_loop_full String D cells.length T cells.length _ _ (lt_irrefl _) p

/-- C3, amended.  A stream delivered one byte per successful read, with any
number of empty polls before each byte, whose first `M = cells.length` bytes
hold no delimiter; `MaxNbBytes = M` (`M = 0` included); no read reports an
error; the clock holds samples enough for the call; and either `T = 0` or,
in the bounded variant, the clock does not run backward and every sample of
the call, the one of the elapsed-time check that follows the `M`-th byte
included, lies before an instant `hi` that is not later than the deadline
`t0 + T` ms and less than 2^31 ms after the start `t0`.  Then `ReadString`
throws `ErrorBufferFullException`; the read answers left over are exactly
those after the `M`-th byte, so no further byte was read, whatever it is; and
the buffer holds the `M` bytes. -/
theorem ReadString_buffer_full (String D T : Nat) (cells : List (Nat × Nat))
    (rest : List OsRead) (t0 : timeval) (cs : List timeval) (hi : Int) (w : World)
    (hclock : w.clock = t0 :: cs)
    (hreads : w.reads = feed cells ++ rest)
    (hT : T < 4294967296) (hD : ∀ c ∈ cells, c.2 ≠ D)
    (hlen : (feed cells).length + 3 * cells.length ≤ cs.length)
    (htime : T = 0 ∨ (t0.normal ∧ hi ≤ t0.us + 1000 * (T : Int) ∧
      hi ≤ t0.us + 2147483648000 ∧ steady t0.us hi cs)) :
    (ReadString String D cells.length T w).1 = .throw .ErrorBufferFullException ∧
    (ReadString String D cells.length T w).2.reads = rest ∧
    (∀ i, i < cells.length →
      load (ReadString String D cells.length T w).2.mem (String + i)
        = (cells.map Prod.snd)[i]?) := by
  obtain ⟨clock, reads, asked, mem⟩ := w
  simp only at hclock hreads
  subst hclock hreads
  obtain ⟨clock', asked', h⟩ := ReadString_buffer_full_run String D T cells rest t0 cs hi
    asked mem hT hD hlen htime
  rw [h]
  refine ⟨rfl, rfl, ?_⟩
  intro i hi'
  exact load_laid mem (cells.map Prod.snd) String i (by simpa using hi')

/-- The hypotheses of `ReadString_buffer_full` hold for the stream "ab" followed
by the delimiter, a two-byte buffer and a 20 ms timeout. -/
theorem ReadString_buffer_full_witness :
    (∀ c ∈ ([(0, 97), (1, 98)] : List (Nat × Nat)), c.2 ≠ 10) ∧
    steady (timeval.us ⟨100, 0⟩) 100020000
      [⟨100, 0⟩, ⟨100, 0⟩, ⟨100, 1000⟩, ⟨100, 1000⟩, ⟨100, 2000⟩, ⟨100, 2000⟩, ⟨100, 3000⟩,
        ⟨100, 3000⟩, ⟨100, 3000⟩] ∧
    (ReadString 0 10 ([(0, 97), (1, 98)] : List (Nat × Nat)).length 20
      ⟨[⟨100, 0⟩, ⟨100, 0⟩, ⟨100, 0⟩, ⟨100, 1000⟩, ⟨100, 1000⟩, ⟨100, 2000⟩, ⟨100, 2000⟩,
        ⟨100, 3000⟩, ⟨100, 3000⟩, ⟨100, 3000⟩],
       feed [(0, 97), (1, 98)] ++ [⟨1, [10]⟩], [], []⟩).1
      = .throw .ErrorBufferFullException ∧
    (ReadString 0 10 ([(0, 97), (1, 98)] : List (Nat × Nat)).length 20
      ⟨[⟨100, 0⟩, ⟨100, 0⟩, ⟨100, 0⟩, ⟨100, 1000⟩, ⟨100, 1000⟩, ⟨100, 2000⟩, ⟨100, 2000⟩,
        ⟨100, 3000⟩, ⟨100, 3000⟩, ⟨100, 3000⟩],
       feed [(0, 97), (1, 98)] ++ [⟨1, [10]⟩], [], []⟩).2.reads = [⟨1, [10]⟩] :=
  have hs : steady (timeval.us ⟨100, 0⟩) 100020000
      [⟨100, 0⟩, ⟨100, 0⟩, ⟨100, 1000⟩, ⟨100, 1000⟩, ⟨100, 2000⟩, ⟨100, 2000⟩, ⟨100, 3000⟩,
        ⟨100, 3000⟩, ⟨100, 3000⟩] := by
    simp only [steady, timeval.normal, timeval.us]; decide
  have h := ReadString_buffer_full 0 10 20 [(0, 97), (1, 98)] [⟨1, [10]⟩] ⟨100, 0⟩
      [⟨100, 0⟩, ⟨100, 0⟩, ⟨100, 1000⟩, ⟨100, 1000⟩, ⟨100, 2000⟩, ⟨100, 2000⟩, ⟨100, 3000⟩,
        ⟨100, 3000⟩, ⟨100, 3000⟩]
      100020000
      ⟨[⟨100, 0⟩, ⟨100, 0⟩, ⟨100, 0⟩, ⟨100, 1000⟩, ⟨100, 1000⟩, ⟨100, 2000⟩, ⟨100, 2000⟩,
        ⟨100, 3000⟩, ⟨100, 3000⟩, ⟨100, 3000⟩],
       feed [(0, 97), (1, 98)] ++ [⟨1, [10]⟩], [], []⟩
      rfl rfl (by decide) (by decide) (by decide)
      (Or.inr ⟨by decide, by decide, by decide, hs⟩)
  ⟨by decide, hs, h.1, h.2.1⟩

/-! ## `Read` -/

/-- C2 as stated fails.  (a) `ReadString(String, '\n', MaxNbBytes = 4,
TimeOut_ms = 3000000000)`: the stream is 'a' followed by the delimiter, no
read fails, and every clock sample is 2147484 s after the start, before the
deadline of 3000000 s.  The outer timer has wrapped (its value is
18446744071562068320 ms): 'a' is still read, but the elapsed-time check that
follows finds the deadline exceeded and `TimeoutException` is thrown with the
delimiter unread.  (b) `TimeOut_ms = 5` with a clock that was set back by
1 ms after the start: the same stream ends in `TimeoutException` although no
sample is later than the deadline. -/
theorem ReadString_delimiter_lost_to_timer_wrap :
    ReadString 0 10 4 3000000000
        ⟨[⟨1700000000, 0⟩, ⟨1702147484, 0⟩, ⟨1702147484, 0⟩, ⟨1702147484, 0⟩,
          ⟨1702147484, 0⟩, ⟨1702147484, 0⟩, ⟨1702147484, 0⟩, ⟨1702147484, 0⟩],
         feed [(0, 97)] ++ burst 0 10, [], []⟩
      = (.throw .TimeoutException,
          ⟨[⟨1702147484, 0⟩, ⟨1702147484, 0⟩, ⟨1702147484, 0⟩], [⟨1, [10]⟩], [1],
            [(1, [0]), (0, [97])]⟩) ∧
    ((timeval.us ⟨1702147484, 0⟩ - timeval.us ⟨1700000000, 0⟩) / 1000 < 3000000000) ∧
    (TimeOut.mk ⟨1700000000, 0⟩).ElapsedTime_ms ⟨1702147484, 0⟩ = 18446744071562068320 ∧
    (ReadString 0 10 4 5
        ⟨[⟨100, 0⟩, ⟨99, 999000⟩, ⟨99, 999000⟩, ⟨99, 999000⟩, ⟨99, 999000⟩, ⟨99, 999000⟩,
          ⟨99, 999000⟩, ⟨99, 999000⟩],
         feed [(0, 97)] ++ burst 0 10, [], []⟩).1 = .throw .TimeoutException ∧
    timeval.us ⟨99, 999000⟩ < timeval.us ⟨100, 0⟩ + 1000 * 5 := by
  decide

/-- C3 as stated fails.  (a) `ReadString(String, '\n', MaxNbBytes = 2,
TimeOut_ms = 5)`: the bytes 'a' and 'b' are read without error at 0 ms and at
1 ms, before the deadline, and a third byte waits.  The elapsed-time check
that follows the second byte samples 7 ms and throws `TimeoutException`
before the loop condition is tested again: the call does not end with
`ErrorBufferFullException`, as it does on the same stream with
`TimeOut_ms = 0`.  (b) `MaxNbBytes = 1`, `TimeOut_ms = 3000000000`, every
sample 2147484 s after the start: the timer has wrapped and the check after
the byte throws `TimeoutException`.  (c) `MaxNbBytes = 1`, `TimeOut_ms = 5`
with a clock that was set back by 1 ms after the start: `TimeoutException`
again. -/
theorem ReadString_full_buffer_lost_to_late_check :
    ReadString 0 10 2 5
        ⟨[⟨100, 0⟩, ⟨100, 0⟩, ⟨100, 0⟩, ⟨100, 0⟩, ⟨100, 1000⟩, ⟨100, 1000⟩, ⟨100, 1000⟩,
          ⟨100, 1000⟩, ⟨100, 7000⟩],
         feed [(0, 97), (0, 98)] ++ [⟨1, [99]⟩], [], []⟩
      = (.throw .TimeoutException,
          ⟨[], [⟨1, [99]⟩], [1, 1], [(2, [0]), (1, [98]), (0, [97])]⟩) ∧
    (TimeOut.mk ⟨100, 0⟩).ElapsedTime_ms ⟨100, 1000⟩ = 1 ∧
    (TimeOut.mk ⟨100, 0⟩).ElapsedTime_ms ⟨100, 7000⟩ = 7 ∧
    ReadString 0 10 2 0
        ⟨[⟨100, 0⟩, ⟨100, 0⟩, ⟨100, 0⟩, ⟨100, 0⟩, ⟨100, 1000⟩, ⟨100, 1000⟩, ⟨100, 1000⟩,
          ⟨100, 1000⟩, ⟨100, 7000⟩],
         feed [(0, 97), (0, 98)] ++ [⟨1, [99]⟩], [], []⟩
      = (.throw .ErrorBufferFullException,
          ⟨[⟨100, 1000⟩, ⟨100, 1000⟩, ⟨100, 1000⟩, ⟨100, 1000⟩, ⟨100, 7000⟩], [⟨1, [99]⟩],
            [1, 1], [(1, [98]), (0, [97])]⟩) ∧
    (ReadString 0 10 1 3000000000
        ⟨[⟨1700000000, 0⟩, ⟨1702147484, 0⟩, ⟨1702147484, 0⟩, ⟨1702147484, 0⟩,
          ⟨1702147484, 0⟩],
         feed [(0, 97)] ++ [⟨1, [99]⟩], [], []⟩).1 = .throw .TimeoutException ∧
    ((timeval.us ⟨1702147484, 0⟩ - timeval.us ⟨1700000000, 0⟩) / 1000 < 3000000000) ∧
    (ReadString 0 10 1 5
        ⟨[⟨100, 0⟩, ⟨99, 999000⟩, ⟨99, 999000⟩, ⟨99, 999000⟩, ⟨99, 999000⟩],
         feed [(0, 97)] ++ [⟨1, [99]⟩], [], []⟩).1 = .throw .TimeoutException ∧
    timeval.us ⟨99, 999000⟩ < timeval.us ⟨100, 0⟩ + 1000 * 5 := by
  decide

/-! ## `Read`: the call returns -/

end SerialLib
